import Mathlib

/-!
Shallow embedding of the Tsetlin Machine implementation in
src/tsetlin_machine_c (files tsetlin_machine.c, sparse_tsetlin_machine.c,
stateless_tsetlin_machine.c, fast_prng.c, utility.h).

Machine integers are modelled as Nat/Int: the 32-bit PRNG state is a Nat
kept below 2^32 by explicit reductions, automaton states (int8) and
weights (int16) are Int (saturation in the code keeps them in range, which
is part of what is proved), votes (int32) are Int.  Arrays are modelled as
functions from Nat; the per-clause linked lists of the sparse and
stateless machines are Lean lists.  Floats returned by prng_next_float are
exact dyadic rationals (see the comment on prng_next_float); the derived
float parameters s_inv and s_min1_inv are stored in the machine record as
the exact rational values of the corresponding IEEE-754 floats.
-/

/-- Pointwise update of a function, modelling an array store a[i] = v. -/
def fupd {α : Type} (f : Nat → α) (i : Nat) (v : α) : Nat → α :=
  fun j => if j = i then v else f j

/-- Conversion of a C boolean (result of a comparison) to the integer 0 or 1,
as it is used in the arithmetic expressions of the feedback kernels. -/
def boolInt (b : Bool) : Int := if b then 1 else 0

/-- The min macro of utility.h, written exactly as the statement
expression expands: a < b picks a, else b. -/
def cmin (a b : Int) : Int := if a < b then a else b

/-- Conversion of an int value to the int8_t it is stored as (two's
complement wrap-around): reduce modulo 256 into the window from -128 to
127.  Every store into an int8_t field of the sparse machine (the node
states and the sparse_min_state / sparse_init_state fields) goes through
this conversion. -/
def wrap8 (z : Int) : Int := (z + 128) % 256 - 128

/-- Function clip from utility.h: clamp x to the interval from -threshold
to threshold. -/
def clip (x threshold : Int) : Int :=
  if x > threshold then threshold
  else if x < -threshold then -threshold
  else x

/-- Function action from tsetlin_machine.c (duplicated in the sparse and
stateless translation units): 1 iff state is at least mid_state. -/
def action (state mid_state : Int) : Bool := decide (state ≥ mid_state)

/-- One xorshift32 step from fast_prng.c: the left shifts wrap modulo 2^32
as the uint32_t arithmetic does; xor of 32-bit values stays 32-bit. -/
def xorshift32 (x : Nat) : Nat :=
  let x1 := x ^^^ ((x <<< 13) % 4294967296)
  let x2 := x1 ^^^ (x1 >>> 17)
  x2 ^^^ ((x2 <<< 5) % 4294967296)

/-- Function prng_seed from fast_prng.c: a zero seed is replaced by the
constant 0xdeadbeef = 3735928559. -/
def prng_seed (seed : Nat) : Nat := if seed = 0 then 3735928559 else seed

/-- Function prng_next_uint32 from fast_prng.c: advance the state by one
xorshift32 step and return it.  Result is (new state, returned value). -/
def prng_next_uint32 (s : Nat) : Nat × Nat :=
  let x := xorshift32 s
  (x, x)

/-- The 23 mantissa bits extracted by prng_next_float: the state is
advanced and the value is the top 23 bits of the new 32-bit state. -/
def prng_next_float_num (s : Nat) : Nat × Nat :=
  let x := xorshift32 s
  (x, x >>> 9)

/-- The exact value of the float built by prng_next_float from 23 mantissa
bits k: or-ing k into the mantissa of 1.0f gives exactly 1 + k/2^23, and
subtracting 1.0f is exact (both operands are within a factor 2 of each
other and k/2^23 is representable), so the returned float is exactly
k/2^23. -/
def float_of_bits23 (k : Nat) : ℚ := mkRat (k : Int) 8388608

/-- The exact value of the C float product m * f where f is a drawn float
with mantissa bits k: the rational m*k/2^23.  In the source this product
appears in the sparse punishment expressions with m = min(state -
min_state, 1); for the values 0 and 1 that m takes on states at or above
min_state the float product is exact, and for negative m the float
product is negative, so comparing this exact rational against the
positive float s_inv decides exactly as the C comparison does. -/
def float_scaled (m : Int) (k : Nat) : ℚ := mkRat (m * (k : Int)) 8388608

/-- Function prng_next_float from fast_prng.c: advance the state, build a
float in [0,1) from the top 23 bits of the new state.  The rational is the
exact value of the returned IEEE-754 float. -/
def prng_next_float (s : Nat) : Nat × ℚ :=
  let p := prng_next_float_num s
  (p.1, float_of_bits23 p.2)

/-- The two output activation modes shipped with the code:
tm_oa_class_idx (argmax, first index wins ties) and tm_oa_bin_vector
(per-class threshold against mid_state). -/
inductive OutputActivation : Type
  | class_idx : OutputActivation
  | bin_vector : OutputActivation
deriving DecidableEq

/-- Body of tm_oa_class_idx (identical in all three translation units):
running argmax over votes[0..C), ties resolved in favour of the first
index.  The fold carries (best_class, max_class_score) exactly as the C
loop does, starting from (0, votes 0) and scanning classes 1..C-1. -/
def oa_class_idx_core (C : Nat) (votes : Nat → Int) : Nat :=
  (((List.range C).drop 1).foldl
    (fun bm c => if bm.2 < votes c then (c, votes c) else bm)
    (0, votes 0)).1

/-- Body of tm_oa_bin_vector (identical in all three translation units):
per class c the output bit is 1 iff votes c > mid_state. -/
def oa_bin_vector_core (C : Nat) (mid_state : Int) (votes : Nat → Int) : List Nat :=
  (List.range C).map (fun c => if votes c > mid_state then 1 else 0)

/-- Dispatch on the stored output_activation function pointer; the result
is the row written into the y_pred buffer (a single class index for
class_idx, C bits for bin_vector). -/
def oa_run (oa : OutputActivation) (C : Nat) (mid_state : Int) (votes : Nat → Int) :
    List Nat :=
  match oa with
  | OutputActivation.class_idx => [oa_class_idx_core C votes]
  | OutputActivation.bin_vector => oa_bin_vector_core C mid_state votes

/-- Body of sum_votes (identical in the three translation units): zero the
votes, add weights[k,c] for every active clause k, then clip every class
total to the threshold. -/
def sum_votes_core (K C : Nat) (clause_output : Nat → Nat) (weights : Nat → Int)
    (T : Int) : Nat → Int :=
  let acc := (List.range K).foldl
    (fun vs k =>
      if clause_output k = 0 then vs
      else (List.range C).foldl
        (fun vs2 c => fupd vs2 c (vs2 c + weights (k * C + c))) vs)
    (fun _ => 0)
  (List.range C).foldl (fun vs c => fupd vs c (clip (vs c) T)) acc

/-- The dense Tsetlin machine, struct TsetlinMachine of tsetlin_machine.h.
The y_size / y_element_size bookkeeping and the function pointers are
represented by the oa tag (the claims treated here exercise the two
shipped output activations); s itself only enters through the stored
float values s_inv and s_min1_inv. -/
structure TsetlinMachine : Type where
  num_classes : Nat
  threshold : Nat
  num_literals : Nat
  num_clauses : Nat
  max_state : Int
  min_state : Int
  boost_true_positive_feedback : Nat
  mid_state : Int
  s_inv : ℚ
  s_min1_inv : ℚ
  ta_state : Nat → Int
  weights : Nat → Int
  clause_output : Nat → Nat
  votes : Nat → Int
  rng : Nat
  oa : OutputActivation

/-- Inner literal loop of the dense calculate_clause_output for one
clause: cell j is the flat TA state (((clause*L)+l)*2)+p = clause*2L+2l+p
for j = 2l+p.  Returns (no kill happened, final empty_clause flag); on a
kill the loop breaks with output 0. -/
def tm_clause_scan (mid_state : Int) (cell : Nat → Int) (X : Nat → Nat) :
    List Nat → Bool → Bool × Bool
  | [], em => (true, em)
  | l :: rest, em =>
    let ai := action (cell (2 * l)) mid_state
    let ain := action (cell (2 * l + 1)) mid_state
    let em2 := em && !(ai || ain)
    if (ai && (X l == 0)) || (ain && (X l == 1)) then (false, em2)
    else tm_clause_scan mid_state cell X rest em2

/-- Output of one clause in the dense calculate_clause_output, including
the empty-clause override controlled by skip_empty. -/
def tm_clause_out_one (tm : TsetlinMachine) (X : Nat → Nat) (skip_empty : Bool)
    (clause_id : Nat) : Nat :=
  let r := tm_clause_scan tm.mid_state
    (fun j => tm.ta_state (clause_id * (tm.num_literals * 2) + j)) X
    (List.range tm.num_literals) true
  if r.1 then (if r.2 && skip_empty then 0 else 1) else 0

/-- Function calculate_clause_output of tsetlin_machine.c: store the
output of every clause into the internal clause_output array. -/
def tm_calculate_clause_output (tm : TsetlinMachine) (X : Nat → Nat)
    (skip_empty : Bool) : TsetlinMachine :=
  let co2 := (List.range tm.num_clauses).foldl
    (fun co k => fupd co k (tm_clause_out_one tm X skip_empty k)) tm.clause_output
  { tm with clause_output := co2 }

/-- Function sum_votes of tsetlin_machine.c. -/
def tm_sum_votes (tm : TsetlinMachine) : TsetlinMachine :=
  let v2 := sum_votes_core tm.num_clauses tm.num_classes tm.clause_output tm.weights
    (tm.threshold : Int)
  { tm with votes := v2 }

/-- One row of tm_predict: clause outputs with skip_empty set, vote
summation, then the output activation; returns the machine (with its
scratch buffers updated) and the y_pred row. -/
def tm_predict_row (tm : TsetlinMachine) (X : Nat → Nat) :
    TsetlinMachine × List Nat :=
  let tm1 := tm_calculate_clause_output tm X true
  let tm2 := tm_sum_votes tm1
  (tm2, oa_run tm2.oa tm2.num_classes tm2.mid_state tm2.votes)

/-- Row loop of tm_predict: n remaining rows starting at row index r; the
flat row-major X buffer is addressed with stride num_literals. -/
def tm_predict_loop (X : Nat → Nat) (L : Nat) :
    Nat → Nat → TsetlinMachine → TsetlinMachine × List (List Nat)
  | 0, _, tm => (tm, [])
  | n + 1, r, tm =>
    let pr := tm_predict_row tm (fun l => X (r * L + l))
    let rest := tm_predict_loop X L n (r + 1) pr.1
    (rest.1, pr.2 :: rest.2)

/-- Function tm_predict of tsetlin_machine.c over a whole batch. -/
def tm_predict (tm : TsetlinMachine) (X : Nat → Nat) (rows : Nat) :
    TsetlinMachine × List (List Nat) :=
  tm_predict_loop X tm.num_literals rows 0 tm

/-- Dense type_1a_feedback, literal loop body folded over literal ids.
The accumulator carries the flat ta_state array and the PRNG state.  The
boost_true_positive_feedback == 1 test short-circuits, so no random draw
is consumed for a boosted true positive. -/
def tm_1a_step (tm : TsetlinMachine) (X : Nat → Nat) (clause_id : Nat)
    (acc : (Nat → Int) × Nat) (literal_id : Nat) : (Nat → Int) × Nat :=
  let ta := acc.1
  let rng := acc.2
  let i0 := (clause_id * tm.num_literals + literal_id) * 2
  if X literal_id = 1 then
    let r :=
      if tm.boost_true_positive_feedback = 1 then (rng, true)
      else
        let p := prng_next_float rng
        (p.1, decide (p.2 ≤ tm.s_min1_inv))
    let ta1 := fupd ta i0 (ta i0 + cmin (tm.max_state - ta i0) 1 * boolInt r.2)
    let p2 := prng_next_float r.1
    let ta2 := fupd ta1 (i0 + 1)
      (ta1 (i0 + 1) -
        cmin (-(tm.min_state - ta1 (i0 + 1))) 1 * boolInt (decide (p2.2 ≤ tm.s_inv)))
    (ta2, p2.1)
  else
    let p1 := prng_next_float rng
    let ta1 := fupd ta (i0 + 1)
      (ta (i0 + 1) +
        cmin (tm.max_state - ta (i0 + 1)) 1 * boolInt (decide (p1.2 ≤ tm.s_min1_inv)))
    let p2 := prng_next_float p1.1
    let ta2 := fupd ta1 i0
      (ta1 i0 - cmin (-(tm.min_state - ta1 i0)) 1 * boolInt (decide (p2.2 ≤ tm.s_inv)))
    (ta2, p2.1)

/-- Function type_1a_feedback of tsetlin_machine.c: saturating weight
reinforcement away from zero (SHRT_MAX = 32767, SHRT_MIN = -32768)
followed by the randomized literal loop. -/
def tm_type_1a_feedback (tm : TsetlinMachine) (X : Nat → Nat)
    (clause_id class_id : Nat) : TsetlinMachine :=
  let widx := clause_id * tm.num_classes + class_id
  let w := tm.weights widx
  let weights2 :=
    if w ≥ 0 then fupd tm.weights widx (w + cmin 1 (32767 - w))
    else fupd tm.weights widx (w - cmin 1 (-(-32768 - w)))
  let res := (List.range tm.num_literals).foldl (tm_1a_step tm X clause_id)
    (tm.ta_state, tm.rng)
  { tm with weights := weights2, ta_state := res.1, rng := res.2 }

/-- Dense type_1b_feedback literal loop body: both polarities are punished
toward min_state, each with its own random draw against s_inv. -/
def tm_1b_step (tm : TsetlinMachine) (clause_id : Nat)
    (acc : (Nat → Int) × Nat) (literal_id : Nat) : (Nat → Int) × Nat :=
  let ta := acc.1
  let i0 := (clause_id * tm.num_literals + literal_id) * 2
  let p1 := prng_next_float acc.2
  let ta1 := fupd ta i0
    (ta i0 - cmin (-(tm.min_state - ta i0)) 1 * boolInt (decide (p1.2 ≤ tm.s_inv)))
  let p2 := prng_next_float p1.1
  let ta2 := fupd ta1 (i0 + 1)
    (ta1 (i0 + 1) -
      cmin (-(tm.min_state - ta1 (i0 + 1))) 1 * boolInt (decide (p2.2 ≤ tm.s_inv)))
  (ta2, p2.1)

/-- Function type_1b_feedback of tsetlin_machine.c. -/
def tm_type_1b_feedback (tm : TsetlinMachine) (clause_id : Nat) : TsetlinMachine :=
  let res := (List.range tm.num_literals).foldl (tm_1b_step tm clause_id)
    (tm.ta_state, tm.rng)
  { tm with ta_state := res.1, rng := res.2 }

/-- Dense type_2_feedback literal loop body: an excluded TA is raised by 1
(saturating at max_state) when its inclusion would have contradicted X. -/
def tm_2_step (tm : TsetlinMachine) (X : Nat → Nat) (clause_id : Nat)
    (ta : Nat → Int) (literal_id : Nat) : Nat → Int :=
  let i0 := (clause_id * tm.num_literals + literal_id) * 2
  let ta1 := fupd ta i0
    (ta i0 + cmin (tm.max_state - ta i0) 1 *
      boolInt (!(action (ta i0) tm.mid_state) && (X literal_id == 0)))
  fupd ta1 (i0 + 1)
    (ta1 (i0 + 1) + cmin (tm.max_state - ta1 (i0 + 1)) 1 *
      boolInt (!(action (ta1 (i0 + 1)) tm.mid_state) && (X literal_id == 1)))

/-- Function type_2_feedback of tsetlin_machine.c: weight moved one step
toward zero (no saturation guard in the source), then the literal loop.
No random draw is consumed. -/
def tm_type_2_feedback (tm : TsetlinMachine) (X : Nat → Nat)
    (clause_id class_id : Nat) : TsetlinMachine :=
  let widx := clause_id * tm.num_classes + class_id
  let weights2 :=
    fupd tm.weights widx
      (tm.weights widx + (if tm.weights widx ≥ 0 then -1 else 1))
  let ta2 := (List.range tm.num_literals).foldl (tm_2_step tm X clause_id) tm.ta_state
  { tm with weights := weights2, ta_state := ta2 }

/-- Cumulative-scan class pick shared by the feedback samplers of
tsetlin_machine.c and sparse_tsetlin_machine.c: walk the classes in order,
accumulate clip(votes c, T) + T over the classes selected by lab, and
return the first class whose running sum reaches the target (the C
variable keeps its initial value 0 if no class is picked). -/
def pick_class_scan (T : Int) (votes : Nat → Int) (lab : Nat → Bool) (target : Int) :
    List Nat → Int → Nat → Nat
  | [], _, cur => cur
  | c :: rest, acc2, cur =>
    if lab c then
      let acc3 := acc2 + clip (votes c) T + T
      if acc3 ≥ target then c
      else pick_class_scan T votes lab target rest acc3 cur
    else pick_class_scan T votes lab target rest acc2 cur

/-- Total weight of the classes selected by lab, as summed by the feedback
samplers: clip(votes c, T) + T per selected class. -/
def sum_label_votes (C : Nat) (T : Int) (votes : Nat → Int) (lab : Nat → Bool) : Int :=
  (List.range C).foldl
    (fun acc2 c => if lab c then acc2 + clip (votes c) T + T else acc2) 0

/-- Positive half of tm_feedback_bin_vector (the sparse
stm_feedback_bin_vector has the identical body), up to and including the
computation of the local variable votes_clipped_positive: negative_class
is still 0 at that point and the code reads tm.votes[negative_class].
Returns none when the positive weight sum is zero (goto
negative_feedback), else (positive_class, votes_clipped_positive, PRNG
state after the selection draw). -/
def tm_feedback_bin_vector_positive_half (tm : TsetlinMachine) (y : Nat → Nat) :
    Option (Nat × Int × Nat) :=
  let negative_class := 0
  let lab := fun c => y c != 0
  let T : Int := (tm.threshold : Int)
  let s := sum_label_votes tm.num_classes T tm.votes lab
  if s = 0 then none
  else
    let p := prng_next_uint32 tm.rng
    let target : Int := (p.2 : Int) % s
    let positive_class :=
      pick_class_scan T tm.votes lab target (List.range tm.num_classes) 0 0
    some (positive_class, clip (tm.votes negative_class) T, p.1)

/-- The update probability the spec prescribes for the positive half: the
clipped votes of the sampled positive class enter the numerator.  Modelled
from the spec sentence on p-plus for comparison with the code path above. -/
def spec_bin_vector_positive_vote (tm : TsetlinMachine) (positive_class : Nat) : Int :=
  clip (tm.votes positive_class) (tm.threshold : Int)

/-- The sparse Tsetlin machine, struct SparseTsetlinMachine of
sparse_tsetlin_machine.h.  Each clause owns an ordered linked list of
(ta_id, ta_state) nodes, modelled as a Lean list; the packed per-class
active-literal bitset is modelled as a function class_id, literal_id to
Bool. -/
structure SparseTsetlinMachine : Type where
  num_classes : Nat
  threshold : Nat
  num_literals : Nat
  num_clauses : Nat
  max_state : Int
  min_state : Int
  boost_true_positive_feedback : Nat
  mid_state : Int
  sparse_min_state : Int
  sparse_init_state : Int
  s_inv : ℚ
  s_min1_inv : ℚ
  ta_state : Nat → List (Nat × Int)
  active_literals : Nat → Nat → Bool
  weights : Nat → Int
  clause_output : Nat → Nat
  votes : Nat → Int
  rng : Nat
  oa : OutputActivation

/-- Node loop of the sparse calculate_clause_output for one clause:
traverse the linked list; a node with action 1 clears the empty flag and
kills the clause iff ta_id mod 2 equals X[ta_id / 2]. -/
def stm_clause_scan (mid_state : Int) (X : Nat → Nat) :
    List (Nat × Int) → Bool → Bool × Bool
  | [], em => (true, em)
  | (id, st) :: rest, em =>
    if action st mid_state then
      if id % 2 == X (id / 2) then (false, false)
      else stm_clause_scan mid_state X rest false
    else stm_clause_scan mid_state X rest em

/-- Output of one clause in the sparse calculate_clause_output. -/
def stm_clause_out_one (stm : SparseTsetlinMachine) (X : Nat → Nat)
    (skip_empty : Bool) (clause_id : Nat) : Nat :=
  let r := stm_clause_scan stm.mid_state X (stm.ta_state clause_id) true
  if r.1 then (if r.2 && skip_empty then 0 else 1) else 0

/-- Function calculate_clause_output of sparse_tsetlin_machine.c. -/
def stm_calculate_clause_output (stm : SparseTsetlinMachine) (X : Nat → Nat)
    (skip_empty : Bool) : SparseTsetlinMachine :=
  let co2 := (List.range stm.num_clauses).foldl
    (fun co k => fupd co k (stm_clause_out_one stm X skip_empty k)) stm.clause_output
  { stm with clause_output := co2 }

/-- Function sum_votes of sparse_tsetlin_machine.c (same body as dense). -/
def stm_sum_votes (stm : SparseTsetlinMachine) : SparseTsetlinMachine :=
  let v2 := sum_votes_core stm.num_clauses stm.num_classes stm.clause_output
    stm.weights (stm.threshold : Int)
  { stm with votes := v2 }

/-- One row of stm_predict. -/
def stm_predict_row (stm : SparseTsetlinMachine) (X : Nat → Nat) :
    SparseTsetlinMachine × List Nat :=
  let m1 := stm_calculate_clause_output stm X true
  let m2 := stm_sum_votes m1
  (m2, oa_run m2.oa m2.num_classes m2.mid_state m2.votes)

/-- Row loop of stm_predict. -/
def stm_predict_loop (X : Nat → Nat) (L : Nat) :
    Nat → Nat → SparseTsetlinMachine → SparseTsetlinMachine × List (List Nat)
  | 0, _, stm => (stm, [])
  | n + 1, r, stm =>
    let pr := stm_predict_row stm (fun l => X (r * L + l))
    let rest := stm_predict_loop X L n (r + 1) pr.1
    (rest.1, pr.2 :: rest.2)

/-- Function stm_predict of sparse_tsetlin_machine.c over a whole batch. -/
def stm_predict (stm : SparseTsetlinMachine) (X : Nat → Nat) (rows : Nat) :
    SparseTsetlinMachine × List (List Nat) :=
  stm_predict_loop X stm.num_literals rows 0 stm

/-- The per-clause list built by stm_load_dense from the flat dense state
block: scan flat ta ids i upward (n ids remaining, current id i) and keep
(i, state) exactly when action(state, mid_state); ta_state_insert with the
running prev cursor appends at the tail, so the constructed linked list is
this list in scan order. -/
def stm_load_clause_list (mid_state : Int) (cells : Nat → Int) :
    Nat → Nat → List (Nat × Int)
  | 0, _ => []
  | n + 1, i =>
    if action (cells i) mid_state then
      (i, cells i) :: stm_load_clause_list mid_state cells n (i + 1)
    else stm_load_clause_list mid_state cells n (i + 1)

/-- Composition of tm_save with stm_load_dense: the sparse machine
obtained by loading the binary file written from the dense machine tm.
The integer metadata fields round-trip unchanged.  The s field does not:
tm_save writes sizeof(double) bytes starting at the float field s, so the
double read back by stm_load_dense mixes the four float bytes with four
adjacent bytes outside the model; the derived fields s_inv and s_min1_inv
are therefore taken as parameters here, and no theorem depends on them.
stm_create seeds the PRNG with the default seed 42 and stm_initialize
consumes one draw per (clause, class) pair for the random weight
initialization before the stored weights overwrite them.  mid_state is
computed with C integer division truncating toward zero;
sparse_min_state = mid_state - 40 and sparse_init_state =
sparse_min_state + 5 are stored into int8_t fields, so each store passes
through wrap8 (the init value is computed from the already-stored,
possibly wrapped, sparse_min_state).  clause_output and votes are
uninitialized scratch buffers in C, rendered here as all-zero. -/
def stm_of_saved_dense (tm : TsetlinMachine) (sInv sMin1Inv : ℚ) : SparseTsetlinMachine :=
  let mid := Int.tdiv (tm.max_state + tm.min_state) 2
  let sparseMin := wrap8 (mid - 40)
  { num_classes := tm.num_classes
    threshold := tm.threshold
    num_literals := tm.num_literals
    num_clauses := tm.num_clauses
    max_state := tm.max_state
    min_state := tm.min_state
    boost_true_positive_feedback := tm.boost_true_positive_feedback
    mid_state := mid
    sparse_min_state := sparseMin
    sparse_init_state := wrap8 (sparseMin + 5)
    s_inv := sInv
    s_min1_inv := sMin1Inv
    ta_state := fun k =>
      stm_load_clause_list mid (fun i => tm.ta_state (k * (tm.num_literals * 2) + i))
        (tm.num_literals * 2) 0
    active_literals := fun _ _ => false
    weights := tm.weights
    clause_output := fun _ => 0
    votes := fun _ => 0
    rng := Nat.iterate xorshift32 (tm.num_clauses * tm.num_classes) (prng_seed 42)
    oa := OutputActivation.class_idx }

/-- Literal-id loop of the sparse type_1a_feedback.  The traversal cursor
is modelled by the pair (done, todo): done holds the nodes already passed
(or rewritten), todo the nodes not yet reached; i is the current flat ta
id, n the number of ids still to visit.  A punished node whose new state
falls strictly below sparse_min_state is dropped.  In the source the
punishment expression parses as (min(state - min_state, 1) * draw) <=
s_inv due to operator precedence, and that comparison result (0 or 1) is
what is subtracted from the state; this is reproduced literally.  Every
new state is stored into the int8_t node field, so it passes through
wrap8 before the removal comparison: at state -128 the unguarded
decrement wraps to +127 and the node is kept. -/
def stm_1a_loop (maxS minS sparseMin : Int) (boost : Nat) (sInv sMin1Inv : ℚ)
    (X : Nat → Nat) (class_id : Nat) :
    Nat → Nat → List (Nat × Int) → List (Nat × Int) → (Nat → Nat → Bool) → Nat →
    List (Nat × Int) × (Nat → Nat → Bool) × Nat
  | 0, _, done, todo, al, rng => (done ++ todo, al, rng)
  | n + 1, i, done, todo, al, rng =>
    let literal_id := i / 2
    let absent := fun (al0 : Nat → Nat → Bool) =>
      if ¬ al0 class_id literal_id ∧ i % 2 = 0 ∧ X literal_id = 1 then
        fupd al0 class_id (fupd (al0 class_id) literal_id true)
      else al0
    match todo with
    | [] =>
      stm_1a_loop maxS minS sparseMin boost sInv sMin1Inv X class_id
        n (i + 1) done [] (absent al) rng
    | (id, st) :: rest =>
      if id = i then
        if id % 2 ≠ X (id / 2) then
          let r :=
            if boost = 1 then (rng, true)
            else
              let p := prng_next_float rng
              (p.1, decide (p.2 ≤ sMin1Inv))
          let st2 := wrap8 (st + cmin (maxS - st) 1 * boolInt r.2)
          stm_1a_loop maxS minS sparseMin boost sInv sMin1Inv X class_id
            n (i + 1) (done ++ [(id, st2)]) rest al r.1
        else
          let p := prng_next_float_num rng
          let st2 := wrap8 (st - boolInt (decide (float_scaled (cmin (-(minS - st)) 1) p.2 ≤ sInv)))
          if st2 < sparseMin then
            stm_1a_loop maxS minS sparseMin boost sInv sMin1Inv X class_id
              n (i + 1) done rest al p.1
          else
            stm_1a_loop maxS minS sparseMin boost sInv sMin1Inv X class_id
              n (i + 1) (done ++ [(id, st2)]) rest al p.1
      else
        stm_1a_loop maxS minS sparseMin boost sInv sMin1Inv X class_id
          n (i + 1) done ((id, st) :: rest) (absent al) rng

/-- Function type_1a_feedback of sparse_tsetlin_machine.c: saturating
weight reinforcement, then the node traversal over all 2L flat ta ids. -/
def stm_type_1a_feedback (stm : SparseTsetlinMachine) (X : Nat → Nat)
    (clause_id class_id : Nat) : SparseTsetlinMachine :=
  let widx := clause_id * stm.num_classes + class_id
  let w := stm.weights widx
  let weights2 :=
    if w ≥ 0 then fupd stm.weights widx (w + cmin 1 (32767 - w))
    else fupd stm.weights widx (w - cmin 1 (-(-32768 - w)))
  let r := stm_1a_loop stm.max_state stm.min_state stm.sparse_min_state
    stm.boost_true_positive_feedback stm.s_inv stm.s_min1_inv X class_id
    (stm.num_literals * 2) 0 [] (stm.ta_state clause_id) stm.active_literals stm.rng
  { stm with weights := weights2,
             ta_state := fupd stm.ta_state clause_id r.1,
             active_literals := r.2.1,
             rng := r.2.2 }

/-- Literal-id loop of the sparse type_1b_feedback: every materialized
node is punished (same precedence-literal reading of the punishment
expression as in type_1a, and the same int8_t store through wrap8) and
removed when the stored state falls strictly below sparse_min_state; ids
without a node are skipped without a draw. -/
def stm_1b_loop (minS sparseMin : Int) (sInv : ℚ) :
    Nat → Nat → List (Nat × Int) → List (Nat × Int) → Nat →
    List (Nat × Int) × Nat
  | 0, _, done, todo, rng => (done ++ todo, rng)
  | n + 1, i, done, todo, rng =>
    match todo with
    | [] => stm_1b_loop minS sparseMin sInv n (i + 1) done [] rng
    | (id, st) :: rest =>
      if id = i then
        let p := prng_next_float_num rng
        let st2 := wrap8 (st - boolInt (decide (float_scaled (cmin (-(minS - st)) 1) p.2 ≤ sInv)))
        if st2 < sparseMin then
          stm_1b_loop minS sparseMin sInv n (i + 1) done rest p.1
        else
          stm_1b_loop minS sparseMin sInv n (i + 1) (done ++ [(id, st2)]) rest p.1
      else stm_1b_loop minS sparseMin sInv n (i + 1) done ((id, st) :: rest) rng

/-- Function type_1b_feedback of sparse_tsetlin_machine.c. -/
def stm_type_1b_feedback (stm : SparseTsetlinMachine) (clause_id : Nat) :
    SparseTsetlinMachine :=
  let r := stm_1b_loop stm.min_state stm.sparse_min_state stm.s_inv
    (stm.num_literals * 2) 0 [] (stm.ta_state clause_id) stm.rng
  { stm with ta_state := fupd stm.ta_state clause_id r.1, rng := r.2 }

/-- Literal-id loop of the sparse type_2_feedback.  A materialized node is
raised by 1 (saturating, stored through the int8_t conversion wrap8) when
excluded and contradicting X.  For an id
with no node, a new node with state sparse_init_state is inserted after
the cursor when the active-literal bit of the class is set and the id is
of positive polarity or of negative polarity with X[literal] = 1 (the
condition exactly as written in the source); the cursor is left on the new
node, so the remaining traversal continues with the old successor. -/
def stm_2_loop (maxS midS initS : Int) (X : Nat → Nat) (class_id : Nat)
    (al : Nat → Nat → Bool) :
    Nat → Nat → List (Nat × Int) → List (Nat × Int) → List (Nat × Int)
  | 0, _, done, todo => done ++ todo
  | n + 1, i, done, todo =>
    let literal_id := i / 2
    let inserted := fun (d : List (Nat × Int)) =>
      if al class_id literal_id ∧ (i % 2 = 0 ∨ (i % 2 = 1 ∧ X literal_id = 1)) then
        d ++ [(i, initS)]
      else d
    match todo with
    | [] => stm_2_loop maxS midS initS X class_id al n (i + 1) (inserted done) []
    | (id, st) :: rest =>
      if id = i then
        let st2 := wrap8 (st + cmin (maxS - st) 1 *
          boolInt (!(action st midS) && (i % 2 == X literal_id)))
        stm_2_loop maxS midS initS X class_id al n (i + 1) (done ++ [(id, st2)]) rest
      else
        stm_2_loop maxS midS initS X class_id al n (i + 1) (inserted done)
          ((id, st) :: rest)

/-- Function type_2_feedback of sparse_tsetlin_machine.c: weight moved one
step toward zero, then the traversal; no random draw is consumed. -/
def stm_type_2_feedback (stm : SparseTsetlinMachine) (X : Nat → Nat)
    (clause_id class_id : Nat) : SparseTsetlinMachine :=
  let widx := clause_id * stm.num_classes + class_id
  let weights2 :=
    fupd stm.weights widx
      (stm.weights widx + (if stm.weights widx ≥ 0 then -1 else 1))
  let l2 := stm_2_loop stm.max_state stm.mid_state stm.sparse_init_state X class_id
    stm.active_literals (stm.num_literals * 2) 0 [] (stm.ta_state clause_id)
  { stm with weights := weights2, ta_state := fupd stm.ta_state clause_id l2 }

/-- The stateless sparse Tsetlin machine, struct StatelessTsetlinMachine
of stateless_tsetlin_machine.h: per-clause ordered lists of ta ids only. -/
structure StatelessTsetlinMachine : Type where
  num_classes : Nat
  threshold : Nat
  num_literals : Nat
  num_clauses : Nat
  max_state : Int
  min_state : Int
  mid_state : Int
  ta_state : Nat → List Nat
  weights : Nat → Int
  clause_output : Nat → Nat
  votes : Nat → Int
  oa : OutputActivation

/-- Node loop of the stateless calculate_clause_output: every node clears
the empty flag; the node kills the clause iff ta_id mod 2 equals
X[ta_id / 2]. -/
def sltm_clause_scan (X : Nat → Nat) : List Nat → Bool → Bool × Bool
  | [], em => (true, em)
  | id :: rest, _ =>
    if id % 2 == X (id / 2) then (false, false)
    else sltm_clause_scan X rest false

/-- Output of one clause in the stateless calculate_clause_output; an
empty clause is always overridden to 0 (no skip_empty parameter). -/
def sltm_clause_out_one (sltm : StatelessTsetlinMachine) (X : Nat → Nat)
    (clause_id : Nat) : Nat :=
  let r := sltm_clause_scan X (sltm.ta_state clause_id) true
  if r.1 then (if r.2 then 0 else 1) else 0

/-- Function calculate_clause_output of stateless_tsetlin_machine.c. -/
def sltm_calculate_clause_output (sltm : StatelessTsetlinMachine) (X : Nat → Nat) :
    StatelessTsetlinMachine :=
  let co2 := (List.range sltm.num_clauses).foldl
    (fun co k => fupd co k (sltm_clause_out_one sltm X k)) sltm.clause_output
  { sltm with clause_output := co2 }

/-- Function sum_votes of stateless_tsetlin_machine.c (same body). -/
def sltm_sum_votes (sltm : StatelessTsetlinMachine) : StatelessTsetlinMachine :=
  let v2 := sum_votes_core sltm.num_clauses sltm.num_classes sltm.clause_output
    sltm.weights (sltm.threshold : Int)
  { sltm with votes := v2 }

/-- One row of sltm_predict. -/
def sltm_predict_row (sltm : StatelessTsetlinMachine) (X : Nat → Nat) :
    StatelessTsetlinMachine × List Nat :=
  let m1 := sltm_calculate_clause_output sltm X
  let m2 := sltm_sum_votes m1
  (m2, oa_run m2.oa m2.num_classes m2.mid_state m2.votes)

/-- Row loop of sltm_predict. -/
def sltm_predict_loop (X : Nat → Nat) (L : Nat) :
    Nat → Nat → StatelessTsetlinMachine → StatelessTsetlinMachine × List (List Nat)
  | 0, _, sltm => (sltm, [])
  | n + 1, r, sltm =>
    let pr := sltm_predict_row sltm (fun l => X (r * L + l))
    let rest := sltm_predict_loop X L n (r + 1) pr.1
    (rest.1, pr.2 :: rest.2)

/-- Function sltm_predict of stateless_tsetlin_machine.c. -/
def sltm_predict (sltm : StatelessTsetlinMachine) (X : Nat → Nat) (rows : Nat) :
    StatelessTsetlinMachine × List (List Nat) :=
  sltm_predict_loop X sltm.num_literals rows 0 sltm

/-- The exact value of the IEEE-754 float 1.0f/10.0f, the s_inv stored
for s = 10. -/
def sInv10 : ℚ := mkRat 13421773 134217728

/-- The exact value of the IEEE-754 float (10.0f - 1.0f)/10.0f, the
s_min1_inv stored for s = 10 (10 - 1 = 9 is exact, 9/10 rounds to the
float nearest 0.9, which is 7549747/2^23). -/
def sMin1Inv10 : ℚ := mkRat 7549747 8388608

/-- The input row X = [1,0,0] of scenario S4 and of the unit test
test_type_1a_feedback. -/
def X100 : Nat → Nat := fun l => if l = 0 then 1 else 0

/-- The dense machine of scenario S4 (and of the repository unit test
test_type_1a_feedback) with the ta_state and weight overwritten as the
scenario prescribes, parameterized by the PRNG state r at the moment
type_1a_feedback is called. -/
def tm_s4 (r : Nat) : TsetlinMachine :=
  { num_classes := 1
    threshold := 100
    num_literals := 3
    num_clauses := 1
    max_state := 127
    min_state := -127
    boost_true_positive_feedback := 1
    mid_state := 0
    s_inv := sInv10
    s_min1_inv := sMin1Inv10
    ta_state := fun i => [1, -1, -1, 1, -1, -1].getD i 0
    weights := fun _ => 1
    clause_output := fun _ => 1
    votes := fun _ => 0
    rng := r
    oa := OutputActivation.bin_vector }

/-- Concrete dense machine exhibiting the vote totals used by the claim
about the positive half of the binary-vector feedback: votes = [0, 100],
T = 100. -/
def tm_c2 : TsetlinMachine :=
  { num_classes := 2
    threshold := 100
    num_literals := 1
    num_clauses := 1
    max_state := 127
    min_state := -127
    boost_true_positive_feedback := 0
    mid_state := 0
    s_inv := sInv10
    s_min1_inv := sMin1Inv10
    ta_state := fun _ => 0
    weights := fun _ => 0
    clause_output := fun _ => 0
    votes := fun c => if c = 0 then 0 else 100
    rng := 7
    oa := OutputActivation.class_idx }

/-- The binary label vector y = [0, 1] for the machine tm_c2. -/
def y_c2 : Nat → Nat := fun c => if c = 1 then 1 else 0

/-- Concrete sparse machine with the narrow admissible state range
max_state = 10, min_state = -10 (so mid_state = 0, sparse_min_state =
-40, sparse_init_state = -35 as stm_initialize computes them), one empty
clause, and the active-literal bit set for class 0, literal 0. -/
def stm_c3 : SparseTsetlinMachine :=
  { num_classes := 1
    threshold := 10
    num_literals := 1
    num_clauses := 1
    max_state := 10
    min_state := -10
    boost_true_positive_feedback := 0
    mid_state := 0
    sparse_min_state := -40
    sparse_init_state := -35
    s_inv := sInv10
    s_min1_inv := sMin1Inv10
    ta_state := fun _ => []
    active_literals := fun c l => c == 0 && l == 0
    weights := fun _ => 1
    clause_output := fun _ => 1
    votes := fun _ => 0
    rng := 1
    oa := OutputActivation.class_idx }

/-- Concrete sparse machine with the standard wide range max_state = 127,
min_state = -127, one empty clause, and the active-literal bit set for
class 0, literal 0; used with the all-ones input row. -/
def stm_c4 : SparseTsetlinMachine :=
  { num_classes := 1
    threshold := 100
    num_literals := 1
    num_clauses := 1
    max_state := 127
    min_state := -127
    boost_true_positive_feedback := 0
    mid_state := 0
    sparse_min_state := -40
    sparse_init_state := -35
    s_inv := sInv10
    s_min1_inv := sMin1Inv10
    ta_state := fun _ => []
    active_literals := fun c l => c == 0 && l == 0
    weights := fun _ => 1
    clause_output := fun _ => 1
    votes := fun _ => 0
    rng := 1
    oa := OutputActivation.class_idx }

/-- Concrete dense machine with the admissible narrow low state range
max_state = -60, min_state = -128, so mid_state = -94 and the
sparse_min_state computed on loading, -94 - 40 = -134, underflows the
int8_t field and wraps to +122.  One class, one clause, one literal; flat
cell 0 holds state -90 (action 1 at mid_state -94), flat cell 1 holds
-128 (action 0). -/
def tm_c7 : TsetlinMachine :=
  { num_classes := 1
    threshold := 10
    num_literals := 1
    num_clauses := 1
    max_state := -60
    min_state := -128
    boost_true_positive_feedback := 0
    mid_state := -94
    s_inv := sInv10
    s_min1_inv := sMin1Inv10
    ta_state := fun i => if i = 0 then -90 else -128
    weights := fun _ => 1
    clause_output := fun _ => 0
    votes := fun _ => 0
    rng := 42
    oa := OutputActivation.class_idx }

/-- Concrete dense machine used to instantiate the universally quantified
claims: one class, one clause, one literal, ta_state = [5, -5] on the
flat cells of clause 0 and zero elsewhere. -/
def tm_w1 : TsetlinMachine :=
  { num_classes := 1
    threshold := 10
    num_literals := 1
    num_clauses := 1
    max_state := 127
    min_state := -127
    boost_true_positive_feedback := 0
    mid_state := 0
    s_inv := sInv10
    s_min1_inv := sMin1Inv10
    ta_state := fun i => if i = 0 then 5 else if i = 1 then -5 else 0
    weights := fun _ => 3
    clause_output := fun _ => 0
    votes := fun _ => 0
    rng := 42
    oa := OutputActivation.class_idx }

/-- Concrete sparse machine with one materialized node (0, 5) per clause,
wide state range, used to instantiate the sparse invariant claims. -/
def stm_w1 : SparseTsetlinMachine :=
  { num_classes := 1
    threshold := 10
    num_literals := 1
    num_clauses := 1
    max_state := 127
    min_state := -127
    boost_true_positive_feedback := 0
    mid_state := 0
    sparse_min_state := -40
    sparse_init_state := -35
    s_inv := sInv10
    s_min1_inv := sMin1Inv10
    ta_state := fun _ => [(0, 5)]
    active_literals := fun _ _ => false
    weights := fun _ => 3
    clause_output := fun _ => 1
    votes := fun _ => 0
    rng := 42
    oa := OutputActivation.class_idx }

/-- The dense machine of scenario S3: two classes, two clauses,
clause_output = [1, 0] and weights = [[5, -2], [-3, 10]] already in
place, T = 100. -/
def tm_s3 : TsetlinMachine :=
  { num_classes := 2
    threshold := 100
    num_literals := 2
    num_clauses := 2
    max_state := 127
    min_state := -127
    boost_true_positive_feedback := 0
    mid_state := 0
    s_inv := sInv10
    s_min1_inv := sMin1Inv10
    ta_state := fun _ => 0
    weights := fun i => [5, -2, -3, 10].getD i 0
    clause_output := fun k => if k = 0 then 1 else 0
    votes := fun _ => 0
    rng := 42
    oa := OutputActivation.class_idx }

/-- Concrete stateless machine used to instantiate the frame claim. -/
def sltm_w1 : StatelessTsetlinMachine :=
  { num_classes := 1
    threshold := 10
    num_literals := 1
    num_clauses := 1
    max_state := 127
    min_state := -127
    mid_state := 0
    ta_state := fun _ => [0]
    weights := fun _ => 3
    clause_output := fun _ => 0
    votes := fun _ => 0
    oa := OutputActivation.class_idx }

/-- The n-th 32-bit value emitted after seeding with seed, counting from
n = 0: each prng_next_uint32 call advances the state once and returns it. -/
def prng_nth_u32 (seed n : Nat) : Nat :=
  Nat.iterate xorshift32 (n + 1) (prng_seed seed)

theorem fupd_self {α : Type} (f : Nat → α) (i : Nat) (v : α) : fupd f i v i = v := by
  simp [fupd]

theorem fupd_ne {α : Type} (f : Nat → α) (i j : Nat) (v : α) (h : j ≠ i) :
    fupd f i v j = f j := by
  simp [fupd, h]

theorem clip_le (x T : Int) (hT : 0 ≤ T) : -T ≤ clip x T ∧ clip x T ≤ T := by
  unfold clip
  split
  · omega
  · split <;> omega

theorem boolInt_zero_or_one (b : Bool) : boolInt b = 0 ∨ boolInt b = 1 := by
  cases b <;> simp [boolInt]

theorem xorshift32_lt (x : Nat) (hx : x < 4294967296) :
    xorshift32 x < 4294967296 := by
  have h32 : (4294967296 : Nat) = 2 ^ 32 := by norm_num
  unfold xorshift32
  rw [h32] at hx ⊢
  refine Nat.xor_lt_two_pow ?_ (by rw [← h32]; exact Nat.mod_lt _ (by norm_num))
  refine Nat.xor_lt_two_pow ?_ ?_
  · exact Nat.xor_lt_two_pow hx (by rw [← h32]; exact Nat.mod_lt _ (by norm_num))
  · calc (x ^^^ (x <<< 13) % 4294967296) >>> 17
        ≤ x ^^^ (x <<< 13) % 4294967296 := by
          rw [Nat.shiftRight_eq_div_pow]; exact Nat.div_le_self _ _
    _ < 2 ^ 32 := Nat.xor_lt_two_pow hx (by rw [← h32]; exact Nat.mod_lt _ (by norm_num))

/-- Claim C8: the PRNG contract.  Seeding with zero substitutes
0xDEADBEEF while a nonzero seed is used verbatim; prng_next_uint32
advances the state by one xorshift32 step (x xor x shl 13, then xor shr
17, then xor shl 5, all in 32 bits) and returns the new state, so (seed,
n) determines the n-th emitted u32; prng_next_float builds its value from
the top 23 bits of the advanced state placed in the mantissa of 1.0f and
the result always lies in the interval from 0 inclusive to 1 exclusive. -/
theorem prng_contract (seed n x : Nat) (hseed : seed ≠ 0) (hx : x < 4294967296) :
    prng_seed 0 = 3735928559 ∧
    prng_seed seed = seed ∧
    prng_next_uint32 x = (xorshift32 x, xorshift32 x) ∧
    (prng_next_uint32 (Nat.iterate xorshift32 n (prng_seed seed))).2 =
      prng_nth_u32 seed n ∧
    (prng_next_float x).2 = float_of_bits23 ((xorshift32 x) >>> 9) ∧
    0 ≤ (prng_next_float x).2 ∧
    (prng_next_float x).2 < 1 := by
  have hlt : xorshift32 x < 4294967296 := xorshift32_lt x hx
  have hk : (xorshift32 x) >>> 9 < 8388608 := by
    rw [Nat.shiftRight_eq_div_pow]
    omega
  refine ⟨rfl, by simp [prng_seed, hseed], rfl, ?_, rfl, ?_, ?_⟩
  · show xorshift32 (Nat.iterate xorshift32 n (prng_seed seed)) = _
    rw [prng_nth_u32, Function.iterate_succ_apply']
  · show (0 : ℚ) ≤ float_of_bits23 ((xorshift32 x) >>> 9)
    unfold float_of_bits23
    rw [Rat.mkRat_eq_div]
    positivity
  · show float_of_bits23 ((xorshift32 x) >>> 9) < 1
    unfold float_of_bits23
    rw [Rat.mkRat_eq_div, div_lt_one (by norm_num)]
    exact_mod_cast hk

/-- Witness for the PRNG contract at seed 5, n 0, state 1. -/
theorem prng_contract_witness :
    prng_seed 5 = 5 ∧ (prng_next_float 1).2 < 1 := by
  have h := prng_contract 5 0 1 (by decide) (by decide)
  exact ⟨h.2.1, h.2.2.2.2.2.2⟩

/-- Claim C2 (evidence of the code bug): in the positive half of the
binary-vector feedback with votes = [0, 100], T = 100 and label y =
[0, 1], the sampled positive class is 1, yet the clipped vote total that
enters the update probability is clip(votes[0]) = 0, not clip(votes[1]) =
100 as the claim prescribes: the source reads
tm.votes[negative_class] while negative_class still holds its initial
value 0. -/
theorem bin_vector_positive_prob_uses_class_zero :
    tm_feedback_bin_vector_positive_half tm_c2 y_c2 =
      some (1, 0, xorshift32 7) ∧
    spec_bin_vector_positive_vote tm_c2 1 = 100 ∧
    (0 : Int) ≠ 100 := by
  refine ⟨by decide, by decide, by decide⟩

/-- Claim C4 (evidence of the code bug): on the sparse machine stm_c4
(active-literal bit set for class 0, literal 0; clause 0 empty) with the
all-ones input, type_2_feedback materializes the positive-polarity TA id
0 with state sparse_init_state = -35 even though for p = 0 and X[0] = 1
the predicate p == X[l] is false, so the claim (and the comment in the
source, and the dense kernel) forbids this insertion; the negative
polarity entry (1, -35) is the one the claim licenses. -/
theorem type_2_inserts_positive_literal_on_one :
    (stm_type_2_feedback stm_c4 (fun _ => 1) 0 0).ta_state 0 =
      [(0, -35), (1, -35)] ∧
    stm_c4.active_literals 0 0 = true ∧
    (0 : Nat) % 2 ≠ 1 := by
  refine ⟨by decide, by decide, by decide⟩

/-- Claim C3 counterexample: on the admissible hyperparameters max_state
= 10, min_state = -10 the sparse Type II insertion materializes a TA with
state sparse_init_state = mid_state - 35 = -35, which lies strictly below
min_state, so a Tsetlin Automaton state leaves the interval from
min_state to max_state after a feedback step. -/
theorem sparse_insert_breaks_state_bounds :
    (stm_type_2_feedback stm_c3 (fun _ => 0) 0 0).ta_state 0 = [(0, -35)] ∧
    (-35 : Int) < stm_c3.min_state := by
  refine ⟨by decide, by decide⟩

/-- Claim C9 counterexample: with the PRNG state 58 at the moment
type_1a_feedback is applied to the S4 machine, the second random draw
exceeds s_min1_inv, so the TA at flat position 3 is not incremented: it
stays at 1 rather than becoming 2 as the claim asserts for every PRNG
state. -/
theorem type_1a_increment_not_deterministic :
    (tm_type_1a_feedback (tm_s4 58) X100 0 0).ta_state 3 = 1 ∧
    (tm_s4 58).ta_state 3 = 1 := by
  refine ⟨by decide, by decide⟩

theorem foldl_fupd_clip (T : Int) :
    ∀ (cs : List Nat), cs.Nodup → ∀ (vs : Nat → Int) (j : Nat),
      (cs.foldl (fun vs2 c => fupd vs2 c (clip (vs2 c) T)) vs) j =
        if j ∈ cs then clip (vs j) T else vs j := by
  intro cs
  induction cs with
  | nil => intro _ vs j; simp
  | cons c rest ih =>
    intro hnd vs j
    rcases List.nodup_cons.mp hnd with ⟨hc, hnd2⟩
    simp only [List.foldl_cons]
    rw [ih hnd2]
    by_cases hj : j ∈ rest
    · have hjc : j ≠ c := by rintro rfl; exact hc hj
      simp [hj, hjc, fupd, List.mem_cons]
    · by_cases hjc : j = c
      · subst hjc; simp [hj, fupd]
      · simp [hj, hjc, fupd, List.mem_cons]

theorem foldl_add_inner (g : Nat → Int) :
    ∀ (cs : List Nat), cs.Nodup → ∀ (vs : Nat → Int) (j : Nat),
      (cs.foldl (fun vs2 c => fupd vs2 c (vs2 c + g c)) vs) j =
        vs j + (if j ∈ cs then g j else 0) := by
  intro cs
  induction cs with
  | nil => intro _ vs j; simp
  | cons c rest ih =>
    intro hnd vs j
    rcases List.nodup_cons.mp hnd with ⟨hc, hnd2⟩
    simp only [List.foldl_cons]
    rw [ih hnd2]
    by_cases hj : j ∈ rest
    · have hjc : j ≠ c := by rintro rfl; exact hc hj
      simp [hj, hjc, fupd, List.mem_cons]
    · by_cases hjc : j = c
      · subst hjc; simp [hj, fupd]
      · simp [hj, hjc, fupd, List.mem_cons]

theorem sum_acc_eval (C : Nat) (out : Nat → Nat) (w : Nat → Int) :
    ∀ (ks : List Nat) (vs : Nat → Int) (j : Nat), j < C →
      (ks.foldl (fun vs3 k => if out k = 0 then vs3
          else (List.range C).foldl
            (fun vs2 c => fupd vs2 c (vs2 c + w (k * C + c))) vs3) vs) j
        = vs j + ((ks.map (fun k => if out k = 0 then 0 else w (k * C + j))).sum) := by
  intro ks
  induction ks with
  | nil => intro vs j _; simp
  | cons k rest ih =>
    intro vs j hj
    simp only [List.foldl_cons, List.map_cons, List.sum_cons]
    by_cases hk : out k = 0
    · rw [if_pos hk, ih vs j hj]
      simp [hk]
    · rw [if_neg hk, ih _ j hj,
        foldl_add_inner (fun c => w (k * C + c)) (List.range C) (List.nodup_range C) vs j]
      simp [hk, List.mem_range, hj]
      ring

theorem sum_votes_core_eval (K C : Nat) (out : Nat → Nat) (w : Nat → Int) (T : Int)
    (j : Nat) (hj : j < C) :
    sum_votes_core K C out w T j =
      clip (((List.range K).map
        (fun k => if out k = 0 then 0 else w (k * C + j))).sum) T := by
  unfold sum_votes_core
  rw [foldl_fupd_clip T (List.range C) (List.nodup_range C) _ j]
  rw [sum_acc_eval C out w (List.range K) (fun _ => 0) j hj]
  simp [List.mem_range, hj]

/-- Claim C5: after sum_votes, votes[c] equals the sum over clauses of
clause_output[k] times weights[k,c], clipped to the interval from -T to
T; consequently votes[c] always lies in that interval; and on the S3
machine (C = 2, K = 2, clause_output = [1,0], weights = [[5,-2],[-3,10]],
T = 100) the result is votes = [5, -2]. -/
theorem sum_votes_clips_weighted_sum :
    (∀ (tm : TsetlinMachine) (c : Nat), c < tm.num_classes →
      (∀ k, k < tm.num_clauses → tm.clause_output k ≤ 1) →
      ((tm_sum_votes tm).votes c =
        clip (((List.range tm.num_clauses).map
          (fun k => (tm.clause_output k : Int) *
            tm.weights (k * tm.num_classes + c))).sum)
          (tm.threshold : Int) ∧
       -(tm.threshold : Int) ≤ (tm_sum_votes tm).votes c ∧
       (tm_sum_votes tm).votes c ≤ (tm.threshold : Int))) ∧
    (tm_sum_votes tm_s3).votes 0 = 5 ∧ (tm_sum_votes tm_s3).votes 1 = -2 := by
  refine ⟨?_, by decide, by decide⟩
  intro tm c hc h01
  have hv : (tm_sum_votes tm).votes c =
      sum_votes_core tm.num_clauses tm.num_classes tm.clause_output tm.weights
        (tm.threshold : Int) c := rfl
  have heq : ((List.range tm.num_clauses).map
      (fun k => if tm.clause_output k = 0 then 0
        else tm.weights (k * tm.num_classes + c))).sum =
      ((List.range tm.num_clauses).map
        (fun k => (tm.clause_output k : Int) *
          tm.weights (k * tm.num_classes + c))).sum := by
    refine congrArg List.sum (List.map_congr_left ?_)
    intro k hk
    have hk2 := h01 k (List.mem_range.mp hk)
    interval_cases h : tm.clause_output k <;> simp
  have hchar := sum_votes_core_eval tm.num_clauses tm.num_classes tm.clause_output
    tm.weights (tm.threshold : Int) c hc
  rw [hv, hchar, heq]
  have hT : (0 : Int) ≤ (tm.threshold : Int) := Int.ofNat_nonneg _
  exact ⟨rfl, (clip_le _ _ hT).1, (clip_le _ _ hT).2⟩

/-- Witness for the sum_votes claim at the S3 machine and class 0. -/
theorem sum_votes_clips_weighted_sum_witness :
    (tm_sum_votes tm_s3).votes 0 =
      clip (((List.range tm_s3.num_clauses).map
        (fun k => (tm_s3.clause_output k : Int) *
          tm_s3.weights (k * tm_s3.num_classes + 0))).sum)
        (tm_s3.threshold : Int) :=
  (sum_votes_clips_weighted_sum.1 tm_s3 0 (by decide) (by decide)).1

theorem foldl_fupd_const {α : Type} (g : Nat → α) :
    ∀ (cs : List Nat), cs.Nodup → ∀ (vs : Nat → α) (j : Nat),
      (cs.foldl (fun f c => fupd f c (g c)) vs) j = if j ∈ cs then g j else vs j := by
  intro cs
  induction cs with
  | nil => intro _ vs j; simp
  | cons c rest ih =>
    intro hnd vs j
    rcases List.nodup_cons.mp hnd with ⟨hc, hnd2⟩
    simp only [List.foldl_cons]
    rw [ih hnd2]
    by_cases hj : j ∈ rest
    · have hjc : j ≠ c := by rintro rfl; exact hc hj
      simp [hj, hjc, List.mem_cons]
    · by_cases hjc : j = c
      · subst hjc; simp [hj, fupd]
      · simp [hj, hjc, fupd, List.mem_cons]

theorem tm_cco_eval (tm : TsetlinMachine) (X : Nat → Nat) (skip_empty : Bool)
    (k : Nat) (hk : k < tm.num_clauses) :
    (tm_calculate_clause_output tm X skip_empty).clause_output k =
      tm_clause_out_one tm X skip_empty k := by
  show ((List.range tm.num_clauses).foldl
    (fun co k2 => fupd co k2 (tm_clause_out_one tm X skip_empty k2))
    tm.clause_output) k = _
  rw [foldl_fupd_const (fun k2 => tm_clause_out_one tm X skip_empty k2)
    (List.range tm.num_clauses) (List.nodup_range _) tm.clause_output k]
  simp [List.mem_range, hk]

theorem sltm_cco_eval (sl : StatelessTsetlinMachine) (X : Nat → Nat)
    (k : Nat) (hk : k < sl.num_clauses) :
    (sltm_calculate_clause_output sl X).clause_output k =
      sltm_clause_out_one sl X k := by
  show ((List.range sl.num_clauses).foldl
    (fun co k2 => fupd co k2 (sltm_clause_out_one sl X k2)) sl.clause_output) k = _
  rw [foldl_fupd_const (fun k2 => sltm_clause_out_one sl X k2)
    (List.range sl.num_clauses) (List.nodup_range _) sl.clause_output k]
  simp [List.mem_range, hk]

theorem stm_cco_eval (stm : SparseTsetlinMachine) (X : Nat → Nat) (skip_empty : Bool)
    (k : Nat) (hk : k < stm.num_clauses) :
    (stm_calculate_clause_output stm X skip_empty).clause_output k =
      stm_clause_out_one stm X skip_empty k := by
  show ((List.range stm.num_clauses).foldl
    (fun co k2 => fupd co k2 (stm_clause_out_one stm X skip_empty k2))
    stm.clause_output) k = _
  rw [foldl_fupd_const (fun k2 => stm_clause_out_one stm X skip_empty k2)
    (List.range stm.num_clauses) (List.nodup_range _) stm.clause_output k]
  simp [List.mem_range, hk]

theorem tm_clause_scan_fst (mid : Int) (cell : Nat → Int) (X : Nat → Nat) :
    ∀ (ls : List Nat) (em : Bool),
      (tm_clause_scan mid cell X ls em).1 = true ↔
        ∀ l ∈ ls, ¬(action (cell (2 * l)) mid = true ∧ X l = 0) ∧
                  ¬(action (cell (2 * l + 1)) mid = true ∧ X l = 1) := by
  intro ls
  induction ls with
  | nil => intro em; simp [tm_clause_scan]
  | cons l rest ih =>
    intro em
    rw [List.forall_mem_cons]
    simp only [tm_clause_scan]
    split
    · rename_i hcond
      simp only [Bool.or_eq_true, Bool.and_eq_true, beq_iff_eq] at hcond
      constructor
      · intro hfalse; simp at hfalse
      · rintro ⟨⟨h1, h2⟩, _⟩
        rcases hcond with ⟨ha, hx⟩ | ⟨ha, hx⟩
        · exact absurd ⟨ha, hx⟩ h1
        · exact absurd ⟨ha, hx⟩ h2
    · rename_i hcond
      simp only [Bool.or_eq_true, Bool.and_eq_true, beq_iff_eq, not_or] at hcond
      rw [ih]
      constructor
      · intro h; exact ⟨hcond, h⟩
      · rintro ⟨_, h⟩; exact h

theorem tm_clause_scan_snd (mid : Int) (cell : Nat → Int) (X : Nat → Nat) :
    ∀ (ls : List Nat) (em : Bool),
      (∀ l ∈ ls, ¬(action (cell (2 * l)) mid = true ∧ X l = 0) ∧
                 ¬(action (cell (2 * l + 1)) mid = true ∧ X l = 1)) →
      (tm_clause_scan mid cell X ls em).2 =
        (em && ls.all (fun l => !(action (cell (2 * l)) mid ||
                                  action (cell (2 * l + 1)) mid))) := by
  intro ls
  induction ls with
  | nil => intro em _; simp [tm_clause_scan]
  | cons l rest ih =>
    intro em h
    rcases List.forall_mem_cons.mp h with ⟨⟨h1, h2⟩, hrest⟩
    simp only [tm_clause_scan]
    split
    · rename_i hcond
      simp only [Bool.or_eq_true, Bool.and_eq_true, beq_iff_eq] at hcond
      rcases hcond with ⟨ha, hx⟩ | ⟨ha, hx⟩
      · exact absurd ⟨ha, hx⟩ h1
      · exact absurd ⟨ha, hx⟩ h2
    · rw [ih _ hrest]
      simp [Bool.and_assoc]

theorem stm_clause_scan_fst (mid : Int) (X : Nat → Nat) :
    ∀ (nds : List (Nat × Int)) (em : Bool),
      (stm_clause_scan mid X nds em).1 = true ↔
        ∀ nd ∈ nds, action nd.2 mid = true → X (nd.1 / 2) ≠ nd.1 % 2 := by
  intro nds
  induction nds with
  | nil => intro em; simp [stm_clause_scan]
  | cons nd rest ih =>
    intro em
    rcases nd with ⟨id, st⟩
    rw [List.forall_mem_cons]
    simp only [stm_clause_scan]
    by_cases ha : action st mid = true
    · rw [if_pos ha]
      by_cases hx : (id % 2 == X (id / 2)) = true
      · rw [if_pos hx]
        simp only [beq_iff_eq] at hx
        constructor
        · intro hfalse; simp at hfalse
        · rintro ⟨hhead, _⟩
          exact absurd hx.symm (hhead ha)
      · rw [if_neg hx]
        simp only [beq_iff_eq] at hx
        rw [ih]
        constructor
        · intro h
          exact ⟨fun _ => fun he => hx he.symm, h⟩
        · rintro ⟨_, h⟩; exact h
    · rw [if_neg ha]
      rw [ih]
      constructor
      · intro h
        exact ⟨fun ha2 => absurd ha2 ha, h⟩
      · rintro ⟨_, h⟩; exact h

theorem stm_clause_scan_snd (mid : Int) (X : Nat → Nat) :
    ∀ (nds : List (Nat × Int)) (em : Bool),
      (∀ nd ∈ nds, action nd.2 mid = true → X (nd.1 / 2) ≠ nd.1 % 2) →
      (stm_clause_scan mid X nds em).2 =
        (em && nds.all (fun nd => !(action nd.2 mid))) := by
  intro nds
  induction nds with
  | nil => intro em _; simp [stm_clause_scan]
  | cons nd rest ih =>
    intro em h
    rcases List.forall_mem_cons.mp h with ⟨hhead, hrest⟩
    rcases nd with ⟨id, st⟩
    simp only [stm_clause_scan]
    by_cases ha : action st mid = true
    · rw [if_pos ha]
      by_cases hx : (id % 2 == X (id / 2)) = true
      · simp only [beq_iff_eq] at hx
        exact absurd hx.symm (hhead ha)
      · rw [if_neg hx, ih _ hrest]
        simp [ha]
    · rw [if_neg ha, ih _ hrest]
      simp [ha, Bool.and_assoc]

theorem sltm_clause_scan_fst (X : Nat → Nat) :
    ∀ (nds : List Nat) (em : Bool),
      (sltm_clause_scan X nds em).1 = true ↔
        ∀ id ∈ nds, X (id / 2) ≠ id % 2 := by
  intro nds
  induction nds with
  | nil => intro em; simp [sltm_clause_scan]
  | cons id rest ih =>
    intro em
    rw [List.forall_mem_cons]
    simp only [sltm_clause_scan]
    by_cases hx : (id % 2 == X (id / 2)) = true
    · rw [if_pos hx]
      simp only [beq_iff_eq] at hx
      constructor
      · intro hfalse; simp at hfalse
      · rintro ⟨hhead, _⟩; exact absurd hx.symm hhead
    · rw [if_neg hx]
      simp only [beq_iff_eq] at hx
      rw [ih]
      constructor
      · intro h; exact ⟨fun he => hx he.symm, h⟩
      · rintro ⟨_, h⟩; exact h

theorem sltm_clause_scan_snd (X : Nat → Nat) :
    ∀ (nds : List Nat) (em : Bool),
      (∀ id ∈ nds, X (id / 2) ≠ id % 2) →
      (sltm_clause_scan X nds em).2 = (em && nds.isEmpty) := by
  intro nds
  induction nds with
  | nil => intro em _; simp [sltm_clause_scan]
  | cons id rest ih =>
    intro em h
    rcases List.forall_mem_cons.mp h with ⟨hhead, hrest⟩
    simp only [sltm_clause_scan]
    by_cases hx : (id % 2 == X (id / 2)) = true
    · simp only [beq_iff_eq] at hx
      exact absurd hx.symm hhead
    · rw [if_neg hx, ih _ hrest]
      simp

theorem dense_literal_flat (mid : Int) (cell : Nat → Int) (X : Nat → Nat) (L : Nat) :
    (∀ l ∈ List.range L, ¬(action (cell (2 * l)) mid = true ∧ X l = 0) ∧
        ¬(action (cell (2 * l + 1)) mid = true ∧ X l = 1)) ↔
    (∀ j, j < L * 2 → action (cell j) mid = true → X (j / 2) ≠ j % 2) := by
  constructor
  · intro h j hj ha hx
    have hl := h (j / 2) (List.mem_range.mpr (by omega))
    rcases Nat.mod_two_eq_zero_or_one j with hm | hm
    · have hje : 2 * (j / 2) = j := by omega
      rw [hje] at hl
      exact hl.1 ⟨ha, by rw [hx, hm]⟩
    · have hje : 2 * (j / 2) + 1 = j := by omega
      rw [hje] at hl
      exact hl.2 ⟨ha, by rw [hx, hm]⟩
  · intro h l hl
    have hlL := List.mem_range.mp hl
    constructor
    · rintro ⟨ha, hx⟩
      have h1 : 2 * l / 2 = l := by omega
      have h2 : 2 * l % 2 = 0 := by omega
      exact h (2 * l) (by omega) ha (by rw [h1, h2]; exact hx)
    · rintro ⟨ha, hx⟩
      have h1 : (2 * l + 1) / 2 = l := by omega
      have h2 : (2 * l + 1) % 2 = 1 := by omega
      exact h (2 * l + 1) (by omega) ha (by rw [h1, h2]; exact hx)

theorem dense_empty_flat (mid : Int) (cell : Nat → Int) (L : Nat) :
    ((List.range L).all
      (fun l => !(action (cell (2 * l)) mid || action (cell (2 * l + 1)) mid)) = true) ↔
    (∀ j, j < L * 2 → action (cell j) mid = false) := by
  rw [List.all_eq_true]
  constructor
  · intro h j hj
    have hl := h (j / 2) (List.mem_range.mpr (by omega))
    simp only [Bool.not_eq_true', Bool.or_eq_false_iff] at hl
    rcases Nat.mod_two_eq_zero_or_one j with hm | hm
    · have hje : 2 * (j / 2) = j := by omega
      rw [hje] at hl
      exact hl.1
    · have hje : 2 * (j / 2) + 1 = j := by omega
      rw [hje] at hl
      exact hl.2
  · intro h l hl
    have hlL := List.mem_range.mp hl
    simp only [Bool.not_eq_true', Bool.or_eq_false_iff]
    exact ⟨h (2 * l) (by omega), h (2 * l + 1) (by omega)⟩

theorem tm_out_one_noskip (tm : TsetlinMachine) (X : Nat → Nat) (k : Nat) :
    tm_clause_out_one tm X false k = 1 ↔
      (∀ j, j < tm.num_literals * 2 →
        action (tm.ta_state (k * (tm.num_literals * 2) + j)) tm.mid_state = true →
        X (j / 2) ≠ j % 2) := by
  have h1 : tm_clause_out_one tm X false k = 1 ↔
      (tm_clause_scan tm.mid_state
        (fun j => tm.ta_state (k * (tm.num_literals * 2) + j)) X
        (List.range tm.num_literals) true).1 = true := by
    unfold tm_clause_out_one
    cases hr : (tm_clause_scan tm.mid_state
        (fun j => tm.ta_state (k * (tm.num_literals * 2) + j)) X
        (List.range tm.num_literals) true).1 <;> simp [hr]
  rw [h1, tm_clause_scan_fst,
    dense_literal_flat tm.mid_state
      (fun j => tm.ta_state (k * (tm.num_literals * 2) + j)) X tm.num_literals]


theorem tm_out_one_skip (tm : TsetlinMachine) (X : Nat → Nat) (k : Nat) :
    tm_clause_out_one tm X true k = 1 ↔
      ((∃ j, j < tm.num_literals * 2 ∧
          action (tm.ta_state (k * (tm.num_literals * 2) + j)) tm.mid_state = true) ∧
        (∀ j, j < tm.num_literals * 2 →
          action (tm.ta_state (k * (tm.num_literals * 2) + j)) tm.mid_state = true →
          X (j / 2) ≠ j % 2)) := by
  by_cases hkill : (tm_clause_scan tm.mid_state
      (fun j => tm.ta_state (k * (tm.num_literals * 2) + j)) X
      (List.range tm.num_literals) true).1 = true
  · have hnk := (tm_clause_scan_fst tm.mid_state
      (fun j => tm.ta_state (k * (tm.num_literals * 2) + j)) X
      (List.range tm.num_literals) true).mp hkill
    have hflat := (dense_literal_flat tm.mid_state
      (fun j => tm.ta_state (k * (tm.num_literals * 2) + j)) X tm.num_literals).mp hnk
    have hsnd := tm_clause_scan_snd tm.mid_state
      (fun j => tm.ta_state (k * (tm.num_literals * 2) + j)) X
      (List.range tm.num_literals) true hnk
    have hout : tm_clause_out_one tm X true k =
        if ((List.range tm.num_literals).all
          (fun l => !(action (tm.ta_state (k * (tm.num_literals * 2) + 2 * l)) tm.mid_state ||
            action (tm.ta_state (k * (tm.num_literals * 2) + (2 * l + 1))) tm.mid_state)))
        then 0 else 1 := by
      unfold tm_clause_out_one
      simp [hkill, hsnd]
    by_cases hall : ((List.range tm.num_literals).all
        (fun l => !(action (tm.ta_state (k * (tm.num_literals * 2) + 2 * l)) tm.mid_state ||
          action (tm.ta_state (k * (tm.num_literals * 2) + (2 * l + 1))) tm.mid_state))) = true
    · have hforall := (dense_empty_flat tm.mid_state
        (fun j => tm.ta_state (k * (tm.num_literals * 2) + j)) tm.num_literals).mp hall
      refine iff_of_false ?_ ?_
      · rw [hout, if_pos hall]; decide
      · rintro ⟨⟨j, hj, ha⟩, _⟩
        rw [hforall j hj] at ha
        exact Bool.false_ne_true ha
    · have hne : ¬(∀ j, j < tm.num_literals * 2 →
          action (tm.ta_state (k * (tm.num_literals * 2) + j)) tm.mid_state = false) := by
        intro hcon
        exact hall ((dense_empty_flat tm.mid_state
          (fun j => tm.ta_state (k * (tm.num_literals * 2) + j)) tm.num_literals).mpr hcon)
      push_neg at hne
      obtain ⟨j, hj, ha⟩ := hne
      rw [Bool.ne_false_iff] at ha
      refine iff_of_true ?_ ⟨⟨j, hj, ha⟩, hflat⟩
      rw [hout, if_neg hall]
  · have hnot : ¬(∀ j, j < tm.num_literals * 2 →
        action (tm.ta_state (k * (tm.num_literals * 2) + j)) tm.mid_state = true →
        X (j / 2) ≠ j % 2) := by
      intro hcon
      exact hkill ((tm_clause_scan_fst tm.mid_state
        (fun j => tm.ta_state (k * (tm.num_literals * 2) + j)) X
        (List.range tm.num_literals) true).mpr
        ((dense_literal_flat tm.mid_state
          (fun j => tm.ta_state (k * (tm.num_literals * 2) + j)) X tm.num_literals).mpr hcon))
    refine iff_of_false ?_ (fun h => hnot h.2)
    rw [Bool.not_eq_true] at hkill
    unfold tm_clause_out_one
    simp [hkill]

theorem sltm_out_one_char (sl : StatelessTsetlinMachine) (X : Nat → Nat) (k : Nat) :
    sltm_clause_out_one sl X k = 1 ↔
      (sl.ta_state k ≠ [] ∧ ∀ id ∈ sl.ta_state k, X (id / 2) ≠ id % 2) := by
  by_cases hkill : (sltm_clause_scan X (sl.ta_state k) true).1 = true
  · have hnk := (sltm_clause_scan_fst X (sl.ta_state k) true).mp hkill
    have hsnd := sltm_clause_scan_snd X (sl.ta_state k) true hnk
    have hout : sltm_clause_out_one sl X k =
        if (sl.ta_state k).isEmpty then 0 else 1 := by
      unfold sltm_clause_out_one
      simp [hkill, hsnd]
    by_cases hemp : (sl.ta_state k).isEmpty = true
    · refine iff_of_false ?_ ?_
      · rw [hout, if_pos hemp]; decide
      · rintro ⟨hne, _⟩
        exact hne (List.isEmpty_iff.mp hemp)
    · refine iff_of_true ?_ ?_
      · rw [hout, if_neg hemp]
      · refine ⟨?_, hnk⟩
        intro hnil
        exact hemp (by rw [hnil]; rfl)
  · have hnot : ¬(∀ id ∈ sl.ta_state k, X (id / 2) ≠ id % 2) := by
      intro hcon
      exact hkill ((sltm_clause_scan_fst X (sl.ta_state k) true).mpr hcon)
    refine iff_of_false ?_ (fun h => hnot h.2)
    rw [Bool.not_eq_true] at hkill
    unfold sltm_clause_out_one
    simp [hkill]

/-- Claim C6: for every clause and input row, the clause output is 1 iff
every included literal matches the bit its polarity requires (an
inclusion with ta_id = 2l+p kills the clause iff p equals X[l]); a
clause with no inclusions evaluates to 0 when skip_empty is set
(inference) and to 1 when skip_empty is unset (training).  The second
part states the same characterization for the stateless machine, whose
empty clauses always evaluate to 0. -/
theorem calculate_clause_output_char :
    (∀ (tm : TsetlinMachine) (X : Nat → Nat) (k : Nat), k < tm.num_clauses →
      ((tm_calculate_clause_output tm X false).clause_output k = 1 ↔
        (∀ j, j < tm.num_literals * 2 →
          action (tm.ta_state (k * (tm.num_literals * 2) + j)) tm.mid_state = true →
          X (j / 2) ≠ j % 2)) ∧
      ((tm_calculate_clause_output tm X true).clause_output k = 1 ↔
        ((∃ j, j < tm.num_literals * 2 ∧
            action (tm.ta_state (k * (tm.num_literals * 2) + j)) tm.mid_state = true) ∧
          (∀ j, j < tm.num_literals * 2 →
            action (tm.ta_state (k * (tm.num_literals * 2) + j)) tm.mid_state = true →
            X (j / 2) ≠ j % 2)))) ∧
    (∀ (sl : StatelessTsetlinMachine) (X : Nat → Nat) (k : Nat), k < sl.num_clauses →
      ((sltm_calculate_clause_output sl X).clause_output k = 1 ↔
        (sl.ta_state k ≠ [] ∧ ∀ id ∈ sl.ta_state k, X (id / 2) ≠ id % 2))) := by
  constructor
  · intro tm X k hk
    constructor
    · rw [tm_cco_eval tm X false k hk]
      exact tm_out_one_noskip tm X k
    · rw [tm_cco_eval tm X true k hk]
      exact tm_out_one_skip tm X k
  · intro sl X k hk
    rw [sltm_cco_eval sl X k hk]
    exact sltm_out_one_char sl X k

/-- Witness for the clause-output characterization: the dense machine
tm_w1 (clause 0 includes the positive polarity of literal 0) on the
all-ones input row. -/
theorem calculate_clause_output_char_witness :
    (tm_calculate_clause_output tm_w1 (fun _ => 1) false).clause_output 0 = 1 ↔
      (∀ j, j < tm_w1.num_literals * 2 →
        action (tm_w1.ta_state (0 * (tm_w1.num_literals * 2) + j)) tm_w1.mid_state = true →
        (fun _ => (1 : Nat)) (j / 2) ≠ j % 2) :=
  (calculate_clause_output_char.1 tm_w1 (fun _ => 1) 0 (by decide)).1

theorem tm_predict_loop_frame (X : Nat → Nat) (L : Nat) :
    ∀ (n r : Nat) (tm : TsetlinMachine),
      (tm_predict_loop X L n r tm).1.ta_state = tm.ta_state ∧
      (tm_predict_loop X L n r tm).1.weights = tm.weights ∧
      (tm_predict_loop X L n r tm).1.rng = tm.rng := by
  intro n
  induction n with
  | zero => intro r tm; exact ⟨rfl, rfl, rfl⟩
  | succ n ih =>
    intro r tm
    have h := ih (r + 1) (tm_predict_row tm (fun l => X (r * L + l))).1
    simp only [tm_predict_loop]
    exact ⟨h.1, h.2.1, h.2.2⟩

theorem stm_predict_loop_frame (X : Nat → Nat) (L : Nat) :
    ∀ (n r : Nat) (stm : SparseTsetlinMachine),
      (stm_predict_loop X L n r stm).1.ta_state = stm.ta_state ∧
      (stm_predict_loop X L n r stm).1.weights = stm.weights ∧
      (stm_predict_loop X L n r stm).1.active_literals = stm.active_literals ∧
      (stm_predict_loop X L n r stm).1.rng = stm.rng := by
  intro n
  induction n with
  | zero => intro r stm; exact ⟨rfl, rfl, rfl, rfl⟩
  | succ n ih =>
    intro r stm
    have h := ih (r + 1) (stm_predict_row stm (fun l => X (r * L + l))).1
    simp only [stm_predict_loop]
    exact ⟨h.1, h.2.1, h.2.2.1, h.2.2.2⟩

theorem sltm_predict_loop_frame (X : Nat → Nat) (L : Nat) :
    ∀ (n r : Nat) (sl : StatelessTsetlinMachine),
      (sltm_predict_loop X L n r sl).1.ta_state = sl.ta_state ∧
      (sltm_predict_loop X L n r sl).1.weights = sl.weights := by
  intro n
  induction n with
  | zero => intro r sl; exact ⟨rfl, rfl⟩
  | succ n ih =>
    intro r sl
    have h := ih (r + 1) (sltm_predict_row sl (fun l => X (r * L + l))).1
    simp only [sltm_predict_loop]
    exact ⟨h.1, h.2⟩

/-- Claim C10: predict on all three representations leaves the TA states,
the weight matrix, the sparse active-literal bitsets, and the PRNG state
unchanged: the per-row pipeline writes only the internal clause_output
and votes scratch buffers (and returns the y_pred rows). -/
theorem predict_frame_effect :
    (∀ (tm : TsetlinMachine) (X : Nat → Nat) (rows : Nat),
      (tm_predict tm X rows).1.ta_state = tm.ta_state ∧
      (tm_predict tm X rows).1.weights = tm.weights ∧
      (tm_predict tm X rows).1.rng = tm.rng) ∧
    (∀ (stm : SparseTsetlinMachine) (X : Nat → Nat) (rows : Nat),
      (stm_predict stm X rows).1.ta_state = stm.ta_state ∧
      (stm_predict stm X rows).1.weights = stm.weights ∧
      (stm_predict stm X rows).1.active_literals = stm.active_literals ∧
      (stm_predict stm X rows).1.rng = stm.rng) ∧
    (∀ (sl : StatelessTsetlinMachine) (X : Nat → Nat) (rows : Nat),
      (sltm_predict sl X rows).1.ta_state = sl.ta_state ∧
      (sltm_predict sl X rows).1.weights = sl.weights) := by
  refine ⟨?_, ?_, ?_⟩
  · intro tm X rows
    exact tm_predict_loop_frame X tm.num_literals rows 0 tm
  · intro stm X rows
    exact stm_predict_loop_frame X stm.num_literals rows 0 stm
  · intro sl X rows
    exact sltm_predict_loop_frame X sl.num_literals rows 0 sl


set_option maxHeartbeats 800000 in
/-- Claim C9 (amended): applying type_1a_feedback(clause 0, class 0) to
the S4 machine (boost = 1, s = 10, ta_state = [1,-1,-1,1,-1,-1],
weights[0] = 1, X = [1,0,0]) sets the weight to 2 and deterministically
increments flat position 0 (the boosted true positive) to 2; positions 3
and 5 are incremented by 1 exactly when their s_min1_inv draw succeeds,
positions 1, 2 and 4 are decremented by 1 exactly when their s_inv draw
succeeds, so for every PRNG state each of these five states moves by at
most one in the stated direction and only position 0 moves
deterministically. -/
theorem type_1a_s4_amended (r : Nat) :
    (tm_type_1a_feedback (tm_s4 r) X100 0 0).weights 0 = 2 ∧
    (tm_type_1a_feedback (tm_s4 r) X100 0 0).ta_state 0 = 2 ∧
    ((tm_type_1a_feedback (tm_s4 r) X100 0 0).ta_state 3 = 1 ∨
     (tm_type_1a_feedback (tm_s4 r) X100 0 0).ta_state 3 = 2) ∧
    ((tm_type_1a_feedback (tm_s4 r) X100 0 0).ta_state 5 = -1 ∨
     (tm_type_1a_feedback (tm_s4 r) X100 0 0).ta_state 5 = 0) ∧
    ((tm_type_1a_feedback (tm_s4 r) X100 0 0).ta_state 1 = -2 ∨
     (tm_type_1a_feedback (tm_s4 r) X100 0 0).ta_state 1 = -1) ∧
    ((tm_type_1a_feedback (tm_s4 r) X100 0 0).ta_state 2 = -2 ∨
     (tm_type_1a_feedback (tm_s4 r) X100 0 0).ta_state 2 = -1) ∧
    ((tm_type_1a_feedback (tm_s4 r) X100 0 0).ta_state 4 = -2 ∨
     (tm_type_1a_feedback (tm_s4 r) X100 0 0).ta_state 4 = -1) := by
  have e3 : List.range (tm_s4 r).num_literals = [0, 1, 2] := rfl
  refine ⟨?_, ?_, ?_, ?_, ?_, ?_, ?_⟩ <;>
    simp only [tm_type_1a_feedback, e3, List.foldl_cons, List.foldl_nil, tm_1a_step] <;>
    norm_num [tm_s4, X100, fupd, boolInt, cmin] <;>
    (split <;> simp_all [not_le])

theorem foldl_inv {α β : Type} (P : α → Prop) (f : α → β → α) :
    ∀ (l : List β) (a : α), P a → (∀ a2 b, b ∈ l → P a2 → P (f a2 b)) →
      P (l.foldl f a) := by
  intro l
  induction l with
  | nil => intro a ha _; exact ha
  | cons b rest ih =>
    intro a ha hstep
    exact ih (f a b) (hstep a b (List.mem_cons_self b rest) ha)
      (fun a2 b2 hb2 => hstep a2 b2 (List.mem_cons_of_mem b hb2))

theorem flat_index_lt (K L cid l : Nat) (hc : cid < K) (hl : l < L) :
    (cid * L + l) * 2 + 1 < K * L * 2 := by
  have h1 : cid * L + l < K * L := by
    calc cid * L + l < cid * L + L := by omega
    _ = (cid + 1) * L := by ring
    _ ≤ K * L := Nat.mul_le_mul_right L hc
  omega

theorem sat_inc_bounds (lo hi st : Int) (b : Bool) (h1 : lo ≤ st) (h2 : st ≤ hi) :
    lo ≤ st + cmin (hi - st) 1 * boolInt b ∧ st + cmin (hi - st) 1 * boolInt b ≤ hi := by
  rcases boolInt_zero_or_one b with hb | hb <;> rw [hb] <;> unfold cmin <;> split <;> omega

theorem sat_dec_bounds (lo hi st : Int) (b : Bool) (h1 : lo ≤ st) (h2 : st ≤ hi) :
    lo ≤ st - cmin (-(lo - st)) 1 * boolInt b ∧
      st - cmin (-(lo - st)) 1 * boolInt b ≤ hi := by
  rcases boolInt_zero_or_one b with hb | hb <;> rw [hb] <;> unfold cmin <;> split <;> omega

theorem wrap8_eq_self (z : Int) (h1 : -128 ≤ z) (h2 : z ≤ 127) : wrap8 z = z := by
  unfold wrap8
  omega

theorem sat_inc_bounds_w8 (lo hi st : Int) (b : Bool) (h1 : lo ≤ st) (h2 : st ≤ hi)
    (h3 : -128 ≤ lo) (h4 : hi ≤ 127) :
    lo ≤ wrap8 (st + cmin (hi - st) 1 * boolInt b) ∧
      wrap8 (st + cmin (hi - st) 1 * boolInt b) ≤ hi := by
  have hu := sat_inc_bounds lo hi st b h1 h2
  rw [wrap8_eq_self _ (by omega) (by omega)]
  exact hu

theorem sat_inc_range_w8 (sparseMin maxS st : Int) (b : Bool)
    (h1 : sparseMin ≤ st) (h2 : st ≤ 127) (h3 : sparseMin ≤ maxS) (h4 : maxS ≤ 127)
    (h5 : -127 ≤ sparseMin) :
    sparseMin ≤ wrap8 (st + cmin (maxS - st) 1 * boolInt b) ∧
      wrap8 (st + cmin (maxS - st) 1 * boolInt b) ≤ 127 := by
  have hu : sparseMin ≤ st + cmin (maxS - st) 1 * boolInt b ∧
      st + cmin (maxS - st) 1 * boolInt b ≤ 127 ∧
      -128 ≤ st + cmin (maxS - st) 1 * boolInt b := by
    rcases boolInt_zero_or_one b with hb | hb <;> rw [hb] <;> unfold cmin <;> split <;> omega
  rw [wrap8_eq_self _ hu.2.2 hu.2.1]
  exact ⟨hu.1, hu.2.1⟩

theorem append_single_prop (done : List (Nat × Int)) (i : Nat) (v : Int)
    (P : Int → Prop) (hdone : ∀ nd ∈ done, P nd.2) (hv : P v) :
    ∀ nd ∈ done ++ [(i, v)], P nd.2 := by
  intro nd hnd
  rcases List.mem_append.mp hnd with h | h
  · exact hdone nd h
  · rcases List.mem_singleton.mp h with rfl
    exact hv

theorem two_upd_bounds (lo hi : Int) (ta : Nat → Int) (N a b : Nat)
    (hab : b ≠ a) (haN : a < N) (hbN : b < N)
    (hinv : ∀ i, i < N → lo ≤ ta i ∧ ta i ≤ hi)
    (f g : Int → Int)
    (hf : ∀ s, lo ≤ s → s ≤ hi → lo ≤ f s ∧ f s ≤ hi)
    (hg : ∀ s, lo ≤ s → s ≤ hi → lo ≤ g s ∧ g s ≤ hi) :
    ∀ i, i < N →
      lo ≤ (fupd (fupd ta a (f (ta a))) b (g ((fupd ta a (f (ta a))) b))) i ∧
      (fupd (fupd ta a (f (ta a))) b (g ((fupd ta a (f (ta a))) b))) i ≤ hi := by
  intro i hi2
  have hba := fupd_ne ta a b (f (ta a)) hab
  by_cases hib : i = b
  · rw [hib, fupd_self, hba]
    exact hg (ta b) (hinv b hbN).1 (hinv b hbN).2
  · rw [fupd_ne _ _ _ _ hib]
    by_cases hia : i = a
    · rw [hia, fupd_self]
      exact hf (ta a) (hinv a haN).1 (hinv a haN).2
    · rw [fupd_ne _ _ _ _ hia]
      exact hinv i hi2

theorem tm_1a_step_bounds (tm : TsetlinMachine) (X : Nat → Nat) (cid : Nat)
    (hc : cid < tm.num_clauses) :
    ∀ (acc : (Nat → Int) × Nat) (l : Nat), l ∈ List.range tm.num_literals →
      (∀ i, i < tm.num_clauses * tm.num_literals * 2 →
        tm.min_state ≤ acc.1 i ∧ acc.1 i ≤ tm.max_state) →
      (∀ i, i < tm.num_clauses * tm.num_literals * 2 →
        tm.min_state ≤ (tm_1a_step tm X cid acc l).1 i ∧
        (tm_1a_step tm X cid acc l).1 i ≤ tm.max_state) := by
  intro acc l hl hinv
  have hlL := List.mem_range.mp hl
  have hidx := flat_index_lt tm.num_clauses tm.num_literals cid l hc hlL
  simp only [tm_1a_step]
  by_cases hx : X l = 1
  · rw [if_pos hx]
    exact two_upd_bounds tm.min_state tm.max_state acc.1
      (tm.num_clauses * tm.num_literals * 2)
      ((cid * tm.num_literals + l) * 2) ((cid * tm.num_literals + l) * 2 + 1)
      (by omega) (by omega) (by omega) hinv _ _
      (fun s hs1 hs2 => sat_inc_bounds tm.min_state tm.max_state s _ hs1 hs2)
      (fun s hs1 hs2 => sat_dec_bounds tm.min_state tm.max_state s _ hs1 hs2)
  · rw [if_neg hx]
    exact two_upd_bounds tm.min_state tm.max_state acc.1
      (tm.num_clauses * tm.num_literals * 2)
      ((cid * tm.num_literals + l) * 2 + 1) ((cid * tm.num_literals + l) * 2)
      (by omega) (by omega) (by omega) hinv _ _
      (fun s hs1 hs2 => sat_inc_bounds tm.min_state tm.max_state s _ hs1 hs2)
      (fun s hs1 hs2 => sat_dec_bounds tm.min_state tm.max_state s _ hs1 hs2)

theorem tm_1b_step_bounds (tm : TsetlinMachine) (cid : Nat)
    (hc : cid < tm.num_clauses) :
    ∀ (acc : (Nat → Int) × Nat) (l : Nat), l ∈ List.range tm.num_literals →
      (∀ i, i < tm.num_clauses * tm.num_literals * 2 →
        tm.min_state ≤ acc.1 i ∧ acc.1 i ≤ tm.max_state) →
      (∀ i, i < tm.num_clauses * tm.num_literals * 2 →
        tm.min_state ≤ (tm_1b_step tm cid acc l).1 i ∧
        (tm_1b_step tm cid acc l).1 i ≤ tm.max_state) := by
  intro acc l hl hinv
  have hlL := List.mem_range.mp hl
  have hidx := flat_index_lt tm.num_clauses tm.num_literals cid l hc hlL
  simp only [tm_1b_step]
  exact two_upd_bounds tm.min_state tm.max_state acc.1
    (tm.num_clauses * tm.num_literals * 2)
    ((cid * tm.num_literals + l) * 2) ((cid * tm.num_literals + l) * 2 + 1)
    (by omega) (by omega) (by omega) hinv _ _
    (fun s hs1 hs2 => sat_dec_bounds tm.min_state tm.max_state s _ hs1 hs2)
    (fun s hs1 hs2 => sat_dec_bounds tm.min_state tm.max_state s _ hs1 hs2)

theorem tm_2_step_bounds (tm : TsetlinMachine) (X : Nat → Nat) (cid : Nat)
    (hc : cid < tm.num_clauses) :
    ∀ (ta : Nat → Int) (l : Nat), l ∈ List.range tm.num_literals →
      (∀ i, i < tm.num_clauses * tm.num_literals * 2 →
        tm.min_state ≤ ta i ∧ ta i ≤ tm.max_state) →
      (∀ i, i < tm.num_clauses * tm.num_literals * 2 →
        tm.min_state ≤ tm_2_step tm X cid ta l i ∧
        tm_2_step tm X cid ta l i ≤ tm.max_state) := by
  intro ta l hl hinv
  have hlL := List.mem_range.mp hl
  have hidx := flat_index_lt tm.num_clauses tm.num_literals cid l hc hlL
  simp only [tm_2_step]
  exact two_upd_bounds tm.min_state tm.max_state ta
    (tm.num_clauses * tm.num_literals * 2)
    ((cid * tm.num_literals + l) * 2) ((cid * tm.num_literals + l) * 2 + 1)
    (by omega) (by omega) (by omega) hinv _ _
    (fun s hs1 hs2 => sat_inc_bounds tm.min_state tm.max_state s _ hs1 hs2)
    (fun s hs1 hs2 => sat_inc_bounds tm.min_state tm.max_state s _ hs1 hs2)

theorem stm_1a_loop_bounds (maxS minS sparseMin : Int) (boost : Nat)
    (sInv sMin1Inv : ℚ) (X : Nat → Nat) (cls : Nat) (hlo : minS ≤ sparseMin)
    (hm8 : -127 ≤ minS) (hM8 : maxS ≤ 127) :
    ∀ (n i : Nat) (done todo : List (Nat × Int)) (al : Nat → Nat → Bool) (rng : Nat),
      (∀ nd ∈ done, minS ≤ nd.2 ∧ nd.2 ≤ maxS) →
      (∀ nd ∈ todo, minS ≤ nd.2 ∧ nd.2 ≤ maxS) →
      ∀ nd ∈ (stm_1a_loop maxS minS sparseMin boost sInv sMin1Inv X cls
          n i done todo al rng).1, minS ≤ nd.2 ∧ nd.2 ≤ maxS := by
  intro n
  induction n with
  | zero =>
    intro i done todo al rng hdone htodo nd hnd
    simp only [stm_1a_loop] at hnd
    rcases List.mem_append.mp hnd with h | h
    · exact hdone nd h
    · exact htodo nd h
  | succ n ih =>
    intro i done todo al rng hdone htodo nd hnd
    cases todo with
    | nil =>
      simp only [stm_1a_loop] at hnd
      exact ih (i + 1) done [] _ rng hdone (by intro nd2 h2; cases h2) nd hnd
    | cons hd rest =>
      rcases hd with ⟨id, st⟩
      have hst := htodo (id, st) (List.mem_cons_self _ _)
      have hrest : ∀ nd2 ∈ rest, minS ≤ nd2.2 ∧ nd2.2 ≤ maxS :=
        fun nd2 h2 => htodo nd2 (List.mem_cons_of_mem _ h2)
      simp only [stm_1a_loop] at hnd
      by_cases hid : id = i
      · rw [if_pos hid] at hnd
        by_cases hvote : id % 2 ≠ X (id / 2)
        · rw [if_pos hvote] at hnd
          refine ih (i + 1) _ rest _ _ ?_ hrest nd hnd
          intro nd2 h2
          rcases List.mem_append.mp h2 with h3 | h3
          · exact hdone nd2 h3
          · rcases List.mem_singleton.mp h3 with rfl
            exact sat_inc_bounds_w8 minS maxS st _ hst.1 hst.2 (by omega) hM8
        · rw [if_neg hvote] at hnd
          by_cases hrem : wrap8 (st - boolInt (decide (float_scaled
              (cmin (-(minS - st)) 1) (prng_next_float_num rng).2 ≤ sInv))) < sparseMin
          · rw [if_pos hrem] at hnd
            exact ih (i + 1) done rest _ _ hdone hrest nd hnd
          · rw [if_neg hrem] at hnd
            refine ih (i + 1) _ rest _ _ ?_ hrest nd hnd
            intro nd2 h2
            rcases List.mem_append.mp h2 with h3 | h3
            · exact hdone nd2 h3
            · rcases List.mem_singleton.mp h3 with rfl
              have hb := boolInt_zero_or_one (decide (float_scaled
                (cmin (-(minS - st)) 1) (prng_next_float_num rng).2 ≤ sInv))
              have hw := wrap8_eq_self (st - boolInt (decide (float_scaled
                (cmin (-(minS - st)) 1) (prng_next_float_num rng).2 ≤ sInv)))
                (by rcases hb with hb | hb <;> rw [hb] <;> omega)
                (by rcases hb with hb | hb <;> rw [hb] <;> omega)
              refine ⟨by omega, ?_⟩
              rcases hb with hb | hb <;> rw [hb] at hw ⊢ <;> omega
      · rw [if_neg hid] at hnd
        exact ih (i + 1) done ((id, st) :: rest) _ rng hdone htodo nd hnd

theorem stm_1b_loop_bounds (minS sparseMin : Int) (sInv : ℚ) (hlo : minS ≤ sparseMin)
    (maxS : Int) (hm8 : -127 ≤ minS) (hM8 : maxS ≤ 127) :
    ∀ (n i : Nat) (done todo : List (Nat × Int)) (rng : Nat),
      (∀ nd ∈ done, minS ≤ nd.2 ∧ nd.2 ≤ maxS) →
      (∀ nd ∈ todo, minS ≤ nd.2 ∧ nd.2 ≤ maxS) →
      ∀ nd ∈ (stm_1b_loop minS sparseMin sInv n i done todo rng).1,
        minS ≤ nd.2 ∧ nd.2 ≤ maxS := by
  intro n
  induction n with
  | zero =>
    intro i done todo rng hdone htodo nd hnd
    simp only [stm_1b_loop] at hnd
    rcases List.mem_append.mp hnd with h | h
    · exact hdone nd h
    · exact htodo nd h
  | succ n ih =>
    intro i done todo rng hdone htodo nd hnd
    cases todo with
    | nil =>
      simp only [stm_1b_loop] at hnd
      exact ih (i + 1) done [] rng hdone (by intro nd2 h2; cases h2) nd hnd
    | cons hd rest =>
      rcases hd with ⟨id, st⟩
      have hst := htodo (id, st) (List.mem_cons_self _ _)
      have hrest : ∀ nd2 ∈ rest, minS ≤ nd2.2 ∧ nd2.2 ≤ maxS :=
        fun nd2 h2 => htodo nd2 (List.mem_cons_of_mem _ h2)
      simp only [stm_1b_loop] at hnd
      by_cases hid : id = i
      · rw [if_pos hid] at hnd
        by_cases hrem : wrap8 (st - boolInt (decide (float_scaled
            (cmin (-(minS - st)) 1) (prng_next_float_num rng).2 ≤ sInv))) < sparseMin
        · rw [if_pos hrem] at hnd
          exact ih (i + 1) done rest _ hdone hrest nd hnd
        · rw [if_neg hrem] at hnd
          refine ih (i + 1) _ rest _ ?_ hrest nd hnd
          intro nd2 h2
          rcases List.mem_append.mp h2 with h3 | h3
          · exact hdone nd2 h3
          · rcases List.mem_singleton.mp h3 with rfl
            have hb := boolInt_zero_or_one (decide (float_scaled
              (cmin (-(minS - st)) 1) (prng_next_float_num rng).2 ≤ sInv))
            have hw := wrap8_eq_self (st - boolInt (decide (float_scaled
              (cmin (-(minS - st)) 1) (prng_next_float_num rng).2 ≤ sInv)))
              (by rcases hb with hb | hb <;> rw [hb] <;> omega)
              (by rcases hb with hb | hb <;> rw [hb] <;> omega)
            refine ⟨by omega, ?_⟩
            rcases hb with hb | hb <;> rw [hb] at hw ⊢ <;> omega
      · rw [if_neg hid] at hnd
        exact ih (i + 1) done ((id, st) :: rest) rng hdone htodo nd hnd

theorem stm_2_loop_bounds (maxS midS initS : Int) (X : Nat → Nat) (cls : Nat)
    (al : Nat → Nat → Bool) (minS : Int) (hinit1 : minS ≤ initS) (hinit2 : initS ≤ maxS)
    (hm8 : -127 ≤ minS) (hM8 : maxS ≤ 127) :
    ∀ (n i : Nat) (done todo : List (Nat × Int)),
      (∀ nd ∈ done, minS ≤ nd.2 ∧ nd.2 ≤ maxS) →
      (∀ nd ∈ todo, minS ≤ nd.2 ∧ nd.2 ≤ maxS) →
      ∀ nd ∈ stm_2_loop maxS midS initS X cls al n i done todo,
        minS ≤ nd.2 ∧ nd.2 ≤ maxS := by
  intro n
  induction n with
  | zero =>
    intro i done todo hdone htodo nd hnd
    simp only [stm_2_loop] at hnd
    rcases List.mem_append.mp hnd with h | h
    · exact hdone nd h
    · exact htodo nd h
  | succ n ih =>
    intro i done todo hdone htodo nd hnd
    have hins : ∀ (d : List (Nat × Int)),
        (∀ nd2 ∈ d, minS ≤ nd2.2 ∧ nd2.2 ≤ maxS) →
        ∀ nd2 ∈ (if al cls (i / 2) ∧ (i % 2 = 0 ∨ (i % 2 = 1 ∧ X (i / 2) = 1))
          then d ++ [(i, initS)] else d), minS ≤ nd2.2 ∧ nd2.2 ≤ maxS := by
      intro d hd nd2 h2
      split at h2
      · rcases List.mem_append.mp h2 with h3 | h3
        · exact hd nd2 h3
        · rcases List.mem_singleton.mp h3 with rfl
          exact ⟨hinit1, hinit2⟩
      · exact hd nd2 h2
    cases todo with
    | nil =>
      simp only [stm_2_loop] at hnd
      exact ih (i + 1) _ [] (hins done hdone) (by intro nd2 h2; cases h2) nd hnd
    | cons hd rest =>
      rcases hd with ⟨id, st⟩
      have hst := htodo (id, st) (List.mem_cons_self _ _)
      have hrest : ∀ nd2 ∈ rest, minS ≤ nd2.2 ∧ nd2.2 ≤ maxS :=
        fun nd2 h2 => htodo nd2 (List.mem_cons_of_mem _ h2)
      simp only [stm_2_loop] at hnd
      by_cases hid : id = i
      · rw [if_pos hid] at hnd
        refine ih (i + 1) _ rest ?_ hrest nd hnd
        intro nd2 h2
        rcases List.mem_append.mp h2 with h3 | h3
        · exact hdone nd2 h3
        · rcases List.mem_singleton.mp h3 with rfl
          exact sat_inc_bounds_w8 minS maxS st _ hst.1 hst.2 (by omega) hM8
      · rw [if_neg hid] at hnd
        exact ih (i + 1) _ ((id, st) :: rest) (hins done hdone) htodo nd hnd

set_option maxHeartbeats 800000 in
/-- Claim C3 (amended): in the dense representation every feedback kernel
keeps every TA state within min_state and max_state (each delta is at
most one and saturates at the bounds; every dense store is guarded, so no
int8 wrap can occur while the states stay in range).  In the sparse
representation the same preservation holds provided min_state is at most
sparse_min_state, sparse_init_state lies between min_state and max_state,
and moreover -127 ≤ min_state and max_state ≤ 127: the sparse punishment
decrement is unguarded, so at min_state = -128 a state already at the
bound is decremented and the int8_t store wraps -129 to +127, keeping a
node above max_state.  For machines set up by stm_initialize the
conditions amount to min_state > -128 together with max_state -
min_state at least 80; without that margin the Type II insertion
materializes sparse_init_state below min_state, as the recorded
counterexample shows. -/
theorem feedback_state_bounds_amended :
    (∀ (tm : TsetlinMachine) (X : Nat → Nat) (cid clid : Nat), cid < tm.num_clauses →
      (∀ i, i < tm.num_clauses * tm.num_literals * 2 →
        tm.min_state ≤ tm.ta_state i ∧ tm.ta_state i ≤ tm.max_state) →
      ∀ i, i < tm.num_clauses * tm.num_literals * 2 →
        (tm.min_state ≤ (tm_type_1a_feedback tm X cid clid).ta_state i ∧
          (tm_type_1a_feedback tm X cid clid).ta_state i ≤ tm.max_state) ∧
        (tm.min_state ≤ (tm_type_1b_feedback tm cid).ta_state i ∧
          (tm_type_1b_feedback tm cid).ta_state i ≤ tm.max_state) ∧
        (tm.min_state ≤ (tm_type_2_feedback tm X cid clid).ta_state i ∧
          (tm_type_2_feedback tm X cid clid).ta_state i ≤ tm.max_state)) ∧
    (∀ (stm : SparseTsetlinMachine) (X : Nat → Nat) (cid clid : Nat),
      cid < stm.num_clauses →
      -127 ≤ stm.min_state →
      stm.max_state ≤ 127 →
      stm.min_state ≤ stm.sparse_min_state →
      stm.min_state ≤ stm.sparse_init_state →
      stm.sparse_init_state ≤ stm.max_state →
      (∀ k nd, nd ∈ stm.ta_state k → stm.min_state ≤ nd.2 ∧ nd.2 ≤ stm.max_state) →
      ∀ k nd,
        (nd ∈ (stm_type_1a_feedback stm X cid clid).ta_state k →
          stm.min_state ≤ nd.2 ∧ nd.2 ≤ stm.max_state) ∧
        (nd ∈ (stm_type_1b_feedback stm cid).ta_state k →
          stm.min_state ≤ nd.2 ∧ nd.2 ≤ stm.max_state) ∧
        (nd ∈ (stm_type_2_feedback stm X cid clid).ta_state k →
          stm.min_state ≤ nd.2 ∧ nd.2 ≤ stm.max_state)) := by
  constructor
  · intro tm X cid clid hc hinv i hi
    have h1a := foldl_inv
      (fun acc : (Nat → Int) × Nat => ∀ j, j < tm.num_clauses * tm.num_literals * 2 →
        tm.min_state ≤ acc.1 j ∧ acc.1 j ≤ tm.max_state)
      (tm_1a_step tm X cid) (List.range tm.num_literals) (tm.ta_state, tm.rng) hinv
      (fun acc l hl hP => tm_1a_step_bounds tm X cid hc acc l hl hP)
    have h1b := foldl_inv
      (fun acc : (Nat → Int) × Nat => ∀ j, j < tm.num_clauses * tm.num_literals * 2 →
        tm.min_state ≤ acc.1 j ∧ acc.1 j ≤ tm.max_state)
      (tm_1b_step tm cid) (List.range tm.num_literals) (tm.ta_state, tm.rng) hinv
      (fun acc l hl hP => tm_1b_step_bounds tm cid hc acc l hl hP)
    have h2 := foldl_inv
      (fun ta : Nat → Int => ∀ j, j < tm.num_clauses * tm.num_literals * 2 →
        tm.min_state ≤ ta j ∧ ta j ≤ tm.max_state)
      (tm_2_step tm X cid) (List.range tm.num_literals) tm.ta_state hinv
      (fun ta l hl hP => tm_2_step_bounds tm X cid hc ta l hl hP)
    exact ⟨h1a i hi, h1b i hi, h2 i hi⟩
  · intro stm X cid clid hc h8lo h8hi hsm hi1 hi2 hstate k nd
    refine ⟨?_, ?_, ?_⟩
    · intro hnd
      simp only [stm_type_1a_feedback] at hnd
      by_cases hk : k = cid
      · rw [hk, fupd_self] at hnd
        exact stm_1a_loop_bounds stm.max_state stm.min_state stm.sparse_min_state
          stm.boost_true_positive_feedback stm.s_inv stm.s_min1_inv X clid hsm
          h8lo h8hi
          (stm.num_literals * 2) 0 [] (stm.ta_state cid) stm.active_literals stm.rng
          (by intro nd2 h2; cases h2) (fun nd2 h2 => hstate cid nd2 h2) nd hnd
      · rw [fupd_ne _ _ _ _ hk] at hnd
        exact hstate k nd hnd
    · intro hnd
      simp only [stm_type_1b_feedback] at hnd
      by_cases hk : k = cid
      · rw [hk, fupd_self] at hnd
        exact stm_1b_loop_bounds stm.min_state stm.sparse_min_state stm.s_inv hsm
          stm.max_state h8lo h8hi (stm.num_literals * 2) 0 [] (stm.ta_state cid) stm.rng
          (by intro nd2 h2; cases h2) (fun nd2 h2 => hstate cid nd2 h2) nd hnd
      · rw [fupd_ne _ _ _ _ hk] at hnd
        exact hstate k nd hnd
    · intro hnd
      simp only [stm_type_2_feedback] at hnd
      by_cases hk : k = cid
      · rw [hk, fupd_self] at hnd
        exact stm_2_loop_bounds stm.max_state stm.mid_state stm.sparse_init_state X
          clid stm.active_literals stm.min_state hi1 hi2 h8lo h8hi
          (stm.num_literals * 2) 0 [] (stm.ta_state cid)
          (by intro nd2 h2; cases h2) (fun nd2 h2 => hstate cid nd2 h2) nd hnd
      · rw [fupd_ne _ _ _ _ hk] at hnd
        exact hstate k nd hnd

/-- Witness for the amended state-bounds claim: the dense machine tm_w1
after Type I b feedback on clause 0, and the sparse machine stm_w1 after
Type I b feedback on clause 0. -/
theorem feedback_state_bounds_amended_witness :
    (tm_w1.min_state ≤ (tm_type_1b_feedback tm_w1 0).ta_state 0 ∧
      (tm_type_1b_feedback tm_w1 0).ta_state 0 ≤ tm_w1.max_state) ∧
    ∀ nd ∈ (stm_type_1b_feedback stm_w1 0).ta_state 0,
      stm_w1.min_state ≤ nd.2 ∧ nd.2 ≤ stm_w1.max_state :=
  ⟨(feedback_state_bounds_amended.1 tm_w1 (fun _ => 0) 0 0 (by decide) (by decide)
      0 (by decide)).2.1,
   fun nd hnd =>
     (feedback_state_bounds_amended.2 stm_w1 (fun _ => 0) 0 0 (by decide) (by decide)
       (by decide) (by decide) (by decide) (by decide)
       (by intro k nd2 h2; rcases List.mem_singleton.mp h2 with rfl
           exact ⟨by decide, by decide⟩) 0 nd).2.1 hnd⟩

theorem sat_inc_ge (sparseMin maxS st : Int) (b : Bool) (h1 : sparseMin ≤ st)
    (hm : sparseMin ≤ maxS) :
    sparseMin ≤ st + cmin (maxS - st) 1 * boolInt b := by
  rcases boolInt_zero_or_one b with hb | hb <;> rw [hb] <;> unfold cmin <;> split <;> omega

theorem append_single_pairwise (done : List (Nat × Int)) (i : Nat) (v : Int)
    (hd : done.Pairwise (fun a b => a.1 < b.1)) (hlt : ∀ nd ∈ done, nd.1 < i) :
    (done ++ [(i, v)]).Pairwise (fun a b => a.1 < b.1) := by
  rw [List.pairwise_append]
  refine ⟨hd, List.pairwise_singleton _ _, ?_⟩
  intro a ha b hb
  rcases List.mem_singleton.mp hb with rfl
  exact hlt a ha

theorem append_single_lt (done : List (Nat × Int)) (i : Nat) (v : Int)
    (hlt : ∀ nd ∈ done, nd.1 < i) :
    ∀ nd ∈ done ++ [(i, v)], nd.1 < i + 1 := by
  intro nd hnd
  rcases List.mem_append.mp hnd with h | h
  · exact Nat.lt_succ_of_lt (hlt nd h)
  · rcases List.mem_singleton.mp h with rfl
    exact Nat.lt_succ_self i

theorem append_single_ge (done : List (Nat × Int)) (i : Nat) (v : Int)
    (sparseMin : Int) (hdone : ∀ nd ∈ done, sparseMin ≤ nd.2) (hv : sparseMin ≤ v) :
    ∀ nd ∈ done ++ [(i, v)], sparseMin ≤ nd.2 := by
  intro nd hnd
  rcases List.mem_append.mp hnd with h | h
  · exact hdone nd h
  · rcases List.mem_singleton.mp h with rfl
    exact hv

theorem cons_rest_sorted (id : Nat) (st : Int) (rest : List (Nat × Int))
    (h : ((id, st) :: rest).Pairwise (fun a b => a.1 < b.1)) :
    rest.Pairwise (fun a b => a.1 < b.1) ∧ ∀ nd ∈ rest, id < nd.1 := by
  rw [List.pairwise_cons] at h
  exact ⟨h.2, fun nd hnd => h.1 nd hnd⟩

theorem stm_1a_loop_inv (maxS minS sparseMin : Int) (boost : Nat)
    (sInv sMin1Inv : ℚ) (X : Nat → Nat) (cls : Nat) (hsm : sparseMin ≤ maxS)
    (hm8 : -127 ≤ sparseMin) (hM8 : maxS ≤ 127) :
    ∀ (n i : Nat) (done todo : List (Nat × Int)) (al : Nat → Nat → Bool) (rng : Nat),
      done.Pairwise (fun a b => a.1 < b.1) →
      todo.Pairwise (fun a b => a.1 < b.1) →
      (∀ nd ∈ done, nd.1 < i) →
      (∀ nd ∈ todo, i ≤ nd.1) →
      (∀ nd ∈ done, sparseMin ≤ nd.2 ∧ nd.2 ≤ 127) →
      (∀ nd ∈ todo, sparseMin ≤ nd.2 ∧ nd.2 ≤ 127) →
      ((stm_1a_loop maxS minS sparseMin boost sInv sMin1Inv X cls
          n i done todo al rng).1.Pairwise (fun a b => a.1 < b.1) ∧
        ∀ nd ∈ (stm_1a_loop maxS minS sparseMin boost sInv sMin1Inv X cls
          n i done todo al rng).1, sparseMin ≤ nd.2 ∧ nd.2 ≤ 127) := by
  intro n
  induction n with
  | zero =>
    intro i done todo al rng hds hts hdi hti hdm htm
    simp only [stm_1a_loop]
    constructor
    · rw [List.pairwise_append]
      exact ⟨hds, hts, fun a ha b hb => Nat.lt_of_lt_of_le (hdi a ha) (hti b hb)⟩
    · intro nd hnd
      rcases List.mem_append.mp hnd with h | h
      · exact hdm nd h
      · exact htm nd h
  | succ n ih =>
    intro i done todo al rng hds hts hdi hti hdm htm
    cases todo with
    | nil =>
      simp only [stm_1a_loop]
      exact ih (i + 1) done [] _ rng hds (List.Pairwise.nil)
        (fun nd h => Nat.lt_succ_of_lt (hdi nd h)) (by intro nd h; cases h)
        hdm (by intro nd h; cases h)
    | cons hd rest =>
      rcases hd with ⟨id, st⟩
      have hhead := hti (id, st) (List.mem_cons_self _ _)
      have hheadm := htm (id, st) (List.mem_cons_self _ _)
      have hh1 := hheadm.1
      have hh2 := hheadm.2
      have hrest := cons_rest_sorted id st rest hts
      have hrestm : ∀ nd ∈ rest, sparseMin ≤ nd.2 ∧ nd.2 ≤ 127 :=
        fun nd h => htm nd (List.mem_cons_of_mem _ h)
      simp only [stm_1a_loop]
      by_cases hid : id = i
      · rw [if_pos hid]
        have hdi2 : ∀ nd ∈ done, nd.1 < id := by rw [hid]; exact hdi
        by_cases hvote : id % 2 ≠ X (id / 2)
        · rw [if_pos hvote]
          refine ih (i + 1) _ rest _ _
            (append_single_pairwise done id _ hds hdi2)
            hrest.1
            (fun nd h => by have h2 := append_single_lt done id _ hdi2 nd h; omega)
            (fun nd h => by have := hrest.2 nd h; omega)
            (append_single_prop done id _ (fun s => sparseMin ≤ s ∧ s ≤ 127) hdm
              (sat_inc_range_w8 sparseMin maxS st _ hh1 hh2 hsm hM8 hm8))
            hrestm
        · rw [if_neg hvote]
          by_cases hrem : wrap8 (st - boolInt (decide (float_scaled
              (cmin (-(minS - st)) 1) (prng_next_float_num rng).2 ≤ sInv))) < sparseMin
          · rw [if_pos hrem]
            exact ih (i + 1) done rest _ _ hds hrest.1
              (fun nd h => Nat.lt_succ_of_lt (hdi nd h))
              (fun nd h => by have := hrest.2 nd h; omega)
              hdm hrestm
          · rw [if_neg hrem]
            refine ih (i + 1) _ rest _ _
              (append_single_pairwise done id _ hds hdi2)
              hrest.1
              (fun nd h => by have h2 := append_single_lt done id _ hdi2 nd h; omega)
              (fun nd h => by have := hrest.2 nd h; omega)
              (append_single_prop done id _ (fun s => sparseMin ≤ s ∧ s ≤ 127) hdm ?_)
              hrestm
            have hb := boolInt_zero_or_one (decide (float_scaled
              (cmin (-(minS - st)) 1) (prng_next_float_num rng).2 ≤ sInv))
            have hw := wrap8_eq_self (st - boolInt (decide (float_scaled
              (cmin (-(minS - st)) 1) (prng_next_float_num rng).2 ≤ sInv)))
              (by rcases hb with hb | hb <;> rw [hb] <;> omega)
              (by rcases hb with hb | hb <;> rw [hb] <;> omega)
            refine ⟨by omega, ?_⟩
            rcases hb with hb | hb <;> rw [hb] at hw ⊢ <;> omega
      · rw [if_neg hid]
        refine ih (i + 1) done ((id, st) :: rest) _ rng hds hts
          (fun nd h => Nat.lt_succ_of_lt (hdi nd h)) ?_ hdm htm
        intro nd hnd
        rcases List.mem_cons.mp hnd with rfl | h
        · omega
        · have := hrest.2 nd h
          omega

theorem stm_1b_loop_inv (minS sparseMin : Int) (sInv : ℚ)
    (hm8 : -127 ≤ sparseMin) :
    ∀ (n i : Nat) (done todo : List (Nat × Int)) (rng : Nat),
      done.Pairwise (fun a b => a.1 < b.1) →
      todo.Pairwise (fun a b => a.1 < b.1) →
      (∀ nd ∈ done, nd.1 < i) →
      (∀ nd ∈ todo, i ≤ nd.1) →
      (∀ nd ∈ done, sparseMin ≤ nd.2 ∧ nd.2 ≤ 127) →
      (∀ nd ∈ todo, sparseMin ≤ nd.2 ∧ nd.2 ≤ 127) →
      ((stm_1b_loop minS sparseMin sInv n i done todo rng).1.Pairwise
          (fun a b => a.1 < b.1) ∧
        ∀ nd ∈ (stm_1b_loop minS sparseMin sInv n i done todo rng).1,
          sparseMin ≤ nd.2 ∧ nd.2 ≤ 127) := by
  intro n
  induction n with
  | zero =>
    intro i done todo rng hds hts hdi hti hdm htm
    simp only [stm_1b_loop]
    constructor
    · rw [List.pairwise_append]
      exact ⟨hds, hts, fun a ha b hb => Nat.lt_of_lt_of_le (hdi a ha) (hti b hb)⟩
    · intro nd hnd
      rcases List.mem_append.mp hnd with h | h
      · exact hdm nd h
      · exact htm nd h
  | succ n ih =>
    intro i done todo rng hds hts hdi hti hdm htm
    cases todo with
    | nil =>
      simp only [stm_1b_loop]
      exact ih (i + 1) done [] rng hds (List.Pairwise.nil)
        (fun nd h => Nat.lt_succ_of_lt (hdi nd h)) (by intro nd h; cases h)
        hdm (by intro nd h; cases h)
    | cons hd rest =>
      rcases hd with ⟨id, st⟩
      have hhead := hti (id, st) (List.mem_cons_self _ _)
      have hheadm := htm (id, st) (List.mem_cons_self _ _)
      have hh1 := hheadm.1
      have hh2 := hheadm.2
      have hrest := cons_rest_sorted id st rest hts
      have hrestm : ∀ nd ∈ rest, sparseMin ≤ nd.2 ∧ nd.2 ≤ 127 :=
        fun nd h => htm nd (List.mem_cons_of_mem _ h)
      simp only [stm_1b_loop]
      by_cases hid : id = i
      · rw [if_pos hid]
        have hdi2 : ∀ nd ∈ done, nd.1 < id := by rw [hid]; exact hdi
        by_cases hrem : wrap8 (st - boolInt (decide (float_scaled
            (cmin (-(minS - st)) 1) (prng_next_float_num rng).2 ≤ sInv))) < sparseMin
        · rw [if_pos hrem]
          exact ih (i + 1) done rest _ hds hrest.1
            (fun nd h => Nat.lt_succ_of_lt (hdi nd h))
            (fun nd h => by have := hrest.2 nd h; omega)
            hdm hrestm
        · rw [if_neg hrem]
          refine ih (i + 1) _ rest _
            (append_single_pairwise done id _ hds hdi2)
            hrest.1
            (fun nd h => by have h2 := append_single_lt done id _ hdi2 nd h; omega)
            (fun nd h => by have := hrest.2 nd h; omega)
            (append_single_prop done id _ (fun s => sparseMin ≤ s ∧ s ≤ 127) hdm ?_)
            hrestm
          have hb := boolInt_zero_or_one (decide (float_scaled
            (cmin (-(minS - st)) 1) (prng_next_float_num rng).2 ≤ sInv))
          have hw := wrap8_eq_self (st - boolInt (decide (float_scaled
            (cmin (-(minS - st)) 1) (prng_next_float_num rng).2 ≤ sInv)))
            (by rcases hb with hb | hb <;> rw [hb] <;> omega)
            (by rcases hb with hb | hb <;> rw [hb] <;> omega)
          refine ⟨by omega, ?_⟩
          rcases hb with hb | hb <;> rw [hb] at hw ⊢ <;> omega
      · rw [if_neg hid]
        refine ih (i + 1) done ((id, st) :: rest) rng hds hts
          (fun nd h => Nat.lt_succ_of_lt (hdi nd h)) ?_ hdm htm
        intro nd hnd
        rcases List.mem_cons.mp hnd with rfl | h
        · omega
        · have := hrest.2 nd h
          omega

theorem stm_2_loop_inv (maxS midS initS : Int) (X : Nat → Nat) (cls : Nat)
    (al : Nat → Nat → Bool) (sparseMin : Int) (hsm : sparseMin ≤ maxS)
    (hinit : sparseMin ≤ initS) (hm8 : -127 ≤ sparseMin) (hM8 : maxS ≤ 127)
    (hinit8 : initS ≤ 127) :
    ∀ (n i : Nat) (done todo : List (Nat × Int)),
      done.Pairwise (fun a b => a.1 < b.1) →
      todo.Pairwise (fun a b => a.1 < b.1) →
      (∀ nd ∈ done, nd.1 < i) →
      (∀ nd ∈ todo, i ≤ nd.1) →
      (∀ nd ∈ done, sparseMin ≤ nd.2 ∧ nd.2 ≤ 127) →
      (∀ nd ∈ todo, sparseMin ≤ nd.2 ∧ nd.2 ≤ 127) →
      ((stm_2_loop maxS midS initS X cls al n i done todo).Pairwise
          (fun a b => a.1 < b.1) ∧
        ∀ nd ∈ stm_2_loop maxS midS initS X cls al n i done todo,
          sparseMin ≤ nd.2 ∧ nd.2 ≤ 127) := by
  intro n
  induction n with
  | zero =>
    intro i done todo hds hts hdi hti hdm htm
    simp only [stm_2_loop]
    constructor
    · rw [List.pairwise_append]
      exact ⟨hds, hts, fun a ha b hb => Nat.lt_of_lt_of_le (hdi a ha) (hti b hb)⟩
    · intro nd hnd
      rcases List.mem_append.mp hnd with h | h
      · exact hdm nd h
      · exact htm nd h
  | succ n ih =>
    intro i done todo hds hts hdi hti hdm htm
    have hinsS : ∀ (d : List (Nat × Int)), d.Pairwise (fun a b => a.1 < b.1) →
        (∀ nd ∈ d, nd.1 < i) →
        ((if al cls (i / 2) ∧ (i % 2 = 0 ∨ (i % 2 = 1 ∧ X (i / 2) = 1))
          then d ++ [(i, initS)] else d).Pairwise (fun a b => a.1 < b.1)) := by
      intro d hd hdl
      split
      · exact append_single_pairwise d i _ hd hdl
      · exact hd
    have hinsL : ∀ (d : List (Nat × Int)), (∀ nd ∈ d, nd.1 < i) →
        ∀ nd ∈ (if al cls (i / 2) ∧ (i % 2 = 0 ∨ (i % 2 = 1 ∧ X (i / 2) = 1))
          then d ++ [(i, initS)] else d), nd.1 < i + 1 := by
      intro d hdl nd hnd
      split at hnd
      · exact append_single_lt d i _ hdl nd hnd
      · exact Nat.lt_succ_of_lt (hdl nd hnd)
    have hinsM : ∀ (d : List (Nat × Int)), (∀ nd ∈ d, sparseMin ≤ nd.2 ∧ nd.2 ≤ 127) →
        ∀ nd ∈ (if al cls (i / 2) ∧ (i % 2 = 0 ∨ (i % 2 = 1 ∧ X (i / 2) = 1))
          then d ++ [(i, initS)] else d), sparseMin ≤ nd.2 ∧ nd.2 ≤ 127 := by
      intro d hdm2 nd hnd
      split at hnd
      · exact append_single_prop d i _ (fun s => sparseMin ≤ s ∧ s ≤ 127) hdm2
          ⟨hinit, hinit8⟩ nd hnd
      · exact hdm2 nd hnd
    cases todo with
    | nil =>
      simp only [stm_2_loop]
      exact ih (i + 1) _ [] (hinsS done hds hdi) (List.Pairwise.nil)
        (hinsL done hdi) (by intro nd h; cases h)
        (hinsM done hdm) (by intro nd h; cases h)
    | cons hd rest =>
      rcases hd with ⟨id, st⟩
      have hhead := hti (id, st) (List.mem_cons_self _ _)
      have hheadm := htm (id, st) (List.mem_cons_self _ _)
      have hh1 := hheadm.1
      have hh2 := hheadm.2
      have hrest := cons_rest_sorted id st rest hts
      have hrestm : ∀ nd ∈ rest, sparseMin ≤ nd.2 ∧ nd.2 ≤ 127 :=
        fun nd h => htm nd (List.mem_cons_of_mem _ h)
      simp only [stm_2_loop]
      by_cases hid : id = i
      · rw [if_pos hid]
        have hdi2 : ∀ nd ∈ done, nd.1 < id := by rw [hid]; exact hdi
        refine ih (i + 1) _ rest
          (append_single_pairwise done id _ hds hdi2)
          hrest.1
          (fun nd h => by have h2 := append_single_lt done id _ hdi2 nd h; omega)
          (fun nd h => by have := hrest.2 nd h; omega)
          (append_single_prop done id _ (fun s => sparseMin ≤ s ∧ s ≤ 127) hdm
            (sat_inc_range_w8 sparseMin maxS st _ hh1 hh2 hsm hM8 hm8))
          hrestm
      · rw [if_neg hid]
        refine ih (i + 1) _ ((id, st) :: rest) (hinsS done hds hdi) hts
          (hinsL done hdi) ?_ (hinsM done hdm) htm
        intro nd hnd
        rcases List.mem_cons.mp hnd with rfl | h
        · omega
        · have := hrest.2 nd h
          omega

theorem stm_load_clause_list_mem (mid : Int) (cells : Nat → Int) :
    ∀ (n i : Nat) (nd : Nat × Int),
      nd ∈ stm_load_clause_list mid cells n i ↔
        (i ≤ nd.1 ∧ nd.1 < i + n ∧ action (cells nd.1) mid = true ∧
          nd.2 = cells nd.1) := by
  intro n
  induction n with
  | zero =>
    intro i nd
    simp only [stm_load_clause_list, List.not_mem_nil, false_iff]
    rintro ⟨h1, h2, _, _⟩
    omega
  | succ n ih =>
    intro i nd
    rcases nd with ⟨a, b⟩
    simp only [stm_load_clause_list]
    by_cases ha : action (cells i) mid = true
    · rw [if_pos ha, List.mem_cons, ih (i + 1) (a, b)]
      simp only [Prod.mk.injEq]
      constructor
      · rintro (⟨heq, rfl⟩ | ⟨h1, h2, h3, h4⟩)
        · exact ⟨by omega, by omega, by rw [heq]; exact ha, by rw [heq]⟩
        · exact ⟨by omega, by omega, h3, h4⟩
      · rintro ⟨h1, h2, h3, h4⟩
        by_cases hi : a = i
        · subst hi
          exact Or.inl ⟨rfl, h4⟩
        · exact Or.inr ⟨by omega, by omega, h3, h4⟩
    · rw [if_neg ha, ih (i + 1) (a, b)]
      constructor
      · rintro ⟨h1, h2, h3, h4⟩
        exact ⟨by omega, by omega, h3, h4⟩
      · rintro ⟨h1, h2, h3, h4⟩
        have hne : a ≠ i := by rintro rfl; exact ha h3
        exact ⟨by omega, by omega, h3, h4⟩

theorem stm_load_clause_list_sorted (mid : Int) (cells : Nat → Int) :
    ∀ (n i : Nat),
      (stm_load_clause_list mid cells n i).Pairwise (fun a b => a.1 < b.1) := by
  intro n
  induction n with
  | zero => intro i; simp [stm_load_clause_list]
  | succ n ih =>
    intro i
    simp only [stm_load_clause_list]
    by_cases ha : action (cells i) mid = true
    · rw [if_pos ha, List.pairwise_cons]
      refine ⟨?_, ih (i + 1)⟩
      intro nd hnd
      have h := (stm_load_clause_list_mem mid cells n (i + 1) nd).mp hnd
      show i < nd.1
      omega
    · rw [if_neg ha]
      exact ih (i + 1)

/-- Claim C7 (counterexample): on the admissible bounds max_state = -60,
min_state = -128 the loader computes mid_state = -94 and sparse_min_state
= mid_state - 40 = -134, which underflows the int8_t field and is stored
as +122; the dense cell with state -90 has action 1 and is materialized
carrying -90, so immediately after stm_load_dense a materialized state
lies strictly below sparse_min_state, violating the invariant. -/
theorem load_wraps_sparse_min_state :
    (stm_of_saved_dense tm_c7 0 0).sparse_min_state = 122 ∧
    (stm_of_saved_dense tm_c7 0 0).ta_state 0 = [(0, -90)] ∧
    (-90 : Int) < (stm_of_saved_dense tm_c7 0 0).sparse_min_state := by
  refine ⟨by decide, by decide, by decide⟩

/-- Claim C7 (amended): the sparse representation invariants, away from
the int8 wrap of the derived state fields.  Loading a dense model whose
computed mid_state lies in [-88, 127] (so that the stored
sparse_min_state = mid_state - 40 does not underflow its int8_t field)
yields, for every clause, a strictly ascending list of ta_ids whose
states all lie at or above sparse_min_state (a fresh machine starts with
every clause empty, for which both properties hold vacuously).  Each of
the three sparse feedback kernels preserves strict ta_id ascent together
with sparse_min_state ≤ state ≤ 127 for every clause, provided -127 ≤
sparse_min_state ≤ sparse_init_state ≤ max_state ≤ 127 (as holds for
every stm_initialize machine with mid_state ≥ -87): entries whose stored
state falls strictly below sparse_min_state during punishment are
removed in the same mutation, insertions carry sparse_init_state at the
ordered position, and all other rewrites keep the id order.  Without the
margin hypotheses the invariant fails, as the recorded counterexample
shows. -/
theorem sparse_invariants_amended :
    (∀ (tm : TsetlinMachine) (q1 q2 : ℚ) (k : Nat),
      -88 ≤ Int.tdiv (tm.max_state + tm.min_state) 2 →
      Int.tdiv (tm.max_state + tm.min_state) 2 ≤ 127 →
      ((stm_of_saved_dense tm q1 q2).ta_state k).Pairwise (fun a b => a.1 < b.1) ∧
      ∀ nd ∈ (stm_of_saved_dense tm q1 q2).ta_state k,
        (stm_of_saved_dense tm q1 q2).sparse_min_state ≤ nd.2) ∧
    (∀ (stm : SparseTsetlinMachine) (X : Nat → Nat) (cid clid : Nat),
      -127 ≤ stm.sparse_min_state →
      stm.max_state ≤ 127 →
      stm.sparse_min_state ≤ stm.sparse_init_state →
      stm.sparse_init_state ≤ stm.max_state →
      (∀ k, (stm.ta_state k).Pairwise (fun a b => a.1 < b.1) ∧
        ∀ nd ∈ stm.ta_state k, stm.sparse_min_state ≤ nd.2 ∧ nd.2 ≤ 127) →
      ∀ k,
        (((stm_type_1a_feedback stm X cid clid).ta_state k).Pairwise
            (fun a b => a.1 < b.1) ∧
          ∀ nd ∈ (stm_type_1a_feedback stm X cid clid).ta_state k,
            stm.sparse_min_state ≤ nd.2 ∧ nd.2 ≤ 127) ∧
        (((stm_type_1b_feedback stm cid).ta_state k).Pairwise
            (fun a b => a.1 < b.1) ∧
          ∀ nd ∈ (stm_type_1b_feedback stm cid).ta_state k,
            stm.sparse_min_state ≤ nd.2 ∧ nd.2 ≤ 127) ∧
        (((stm_type_2_feedback stm X cid clid).ta_state k).Pairwise
            (fun a b => a.1 < b.1) ∧
          ∀ nd ∈ (stm_type_2_feedback stm X cid clid).ta_state k,
            stm.sparse_min_state ≤ nd.2 ∧ nd.2 ≤ 127)) := by
  constructor
  · intro tm q1 q2 k hm1 hm2
    constructor
    · exact stm_load_clause_list_sorted _ _ (tm.num_literals * 2) 0
    · intro nd hnd
      have h := (stm_load_clause_list_mem _ _ (tm.num_literals * 2) 0 nd).mp hnd
      have hact := h.2.2.1
      simp only [action, decide_eq_true_eq] at hact
      have hv := h.2.2.2
      have hw := wrap8_eq_self (Int.tdiv (tm.max_state + tm.min_state) 2 - 40)
        (by omega) (by omega)
      show wrap8 (Int.tdiv (tm.max_state + tm.min_state) 2 - 40) ≤ nd.2
      omega
  · intro stm X cid clid hm8 hM8 hinit1 hinit2 hinv k
    have hsm : stm.sparse_min_state ≤ stm.max_state := by omega
    have hinit8 : stm.sparse_init_state ≤ 127 := by omega
    refine ⟨⟨?_, ?_⟩, ⟨?_, ?_⟩, ⟨?_, ?_⟩⟩
    · show (fupd stm.ta_state cid (stm_1a_loop stm.max_state stm.min_state
        stm.sparse_min_state stm.boost_true_positive_feedback stm.s_inv
        stm.s_min1_inv X clid (stm.num_literals * 2) 0 [] (stm.ta_state cid)
        stm.active_literals stm.rng).1 k).Pairwise (fun a b => a.1 < b.1)
      by_cases hk : k = cid
      · rw [hk, fupd_self]
        exact (stm_1a_loop_inv stm.max_state stm.min_state stm.sparse_min_state
          stm.boost_true_positive_feedback stm.s_inv stm.s_min1_inv X clid hsm hm8 hM8
          (stm.num_literals * 2) 0 [] (stm.ta_state cid) stm.active_literals stm.rng
          List.Pairwise.nil (hinv cid).1 (by intro nd h; cases h)
          (by intro nd _; exact Nat.zero_le _) (by intro nd h; cases h)
          (hinv cid).2).1
      · rw [fupd_ne _ _ _ _ hk]
        exact (hinv k).1
    · intro nd hnd
      simp only [stm_type_1a_feedback] at hnd
      by_cases hk : k = cid
      · rw [hk, fupd_self] at hnd
        exact (stm_1a_loop_inv stm.max_state stm.min_state stm.sparse_min_state
          stm.boost_true_positive_feedback stm.s_inv stm.s_min1_inv X clid hsm hm8 hM8
          (stm.num_literals * 2) 0 [] (stm.ta_state cid) stm.active_literals stm.rng
          List.Pairwise.nil (hinv cid).1 (by intro nd2 h; cases h)
          (by intro nd2 _; exact Nat.zero_le _) (by intro nd2 h; cases h)
          (hinv cid).2).2 nd hnd
      · rw [fupd_ne _ _ _ _ hk] at hnd
        exact (hinv k).2 nd hnd
    · show (fupd stm.ta_state cid (stm_1b_loop stm.min_state stm.sparse_min_state
        stm.s_inv (stm.num_literals * 2) 0 [] (stm.ta_state cid) stm.rng).1
        k).Pairwise (fun a b => a.1 < b.1)
      by_cases hk : k = cid
      · rw [hk, fupd_self]
        exact (stm_1b_loop_inv stm.min_state stm.sparse_min_state stm.s_inv hm8
          (stm.num_literals * 2) 0 [] (stm.ta_state cid) stm.rng
          List.Pairwise.nil (hinv cid).1 (by intro nd h; cases h)
          (by intro nd _; exact Nat.zero_le _) (by intro nd h; cases h)
          (hinv cid).2).1
      · rw [fupd_ne _ _ _ _ hk]
        exact (hinv k).1
    · intro nd hnd
      simp only [stm_type_1b_feedback] at hnd
      by_cases hk : k = cid
      · rw [hk, fupd_self] at hnd
        exact (stm_1b_loop_inv stm.min_state stm.sparse_min_state stm.s_inv hm8
          (stm.num_literals * 2) 0 [] (stm.ta_state cid) stm.rng
          List.Pairwise.nil (hinv cid).1 (by intro nd2 h; cases h)
          (by intro nd2 _; exact Nat.zero_le _) (by intro nd2 h; cases h)
          (hinv cid).2).2 nd hnd
      · rw [fupd_ne _ _ _ _ hk] at hnd
        exact (hinv k).2 nd hnd
    · show (fupd stm.ta_state cid (stm_2_loop stm.max_state stm.mid_state
        stm.sparse_init_state X clid stm.active_literals (stm.num_literals * 2) 0 []
        (stm.ta_state cid)) k).Pairwise (fun a b => a.1 < b.1)
      by_cases hk : k = cid
      · rw [hk, fupd_self]
        exact (stm_2_loop_inv stm.max_state stm.mid_state stm.sparse_init_state X
          clid stm.active_literals stm.sparse_min_state hsm hinit1 hm8 hM8 hinit8
          (stm.num_literals * 2) 0 [] (stm.ta_state cid)
          List.Pairwise.nil (hinv cid).1 (by intro nd h; cases h)
          (by intro nd _; exact Nat.zero_le _) (by intro nd h; cases h)
          (hinv cid).2).1
      · rw [fupd_ne _ _ _ _ hk]
        exact (hinv k).1
    · intro nd hnd
      simp only [stm_type_2_feedback] at hnd
      by_cases hk : k = cid
      · rw [hk, fupd_self] at hnd
        exact (stm_2_loop_inv stm.max_state stm.mid_state stm.sparse_init_state X
          clid stm.active_literals stm.sparse_min_state hsm hinit1 hm8 hM8 hinit8
          (stm.num_literals * 2) 0 [] (stm.ta_state cid)
          List.Pairwise.nil (hinv cid).1 (by intro nd2 h; cases h)
          (by intro nd2 _; exact Nat.zero_le _) (by intro nd2 h; cases h)
          (hinv cid).2).2 nd hnd
      · rw [fupd_ne _ _ _ _ hk] at hnd
        exact (hinv k).2 nd hnd

/-- Witness for the amended sparse invariants: type_1a_feedback on the
machine stm_w1 keeps clause 0 strictly ascending, and the machine loaded
from tm_w1 keeps every materialized state at or above sparse_min_state. -/
theorem sparse_invariants_amended_witness :
    ((stm_type_1a_feedback stm_w1 (fun _ => 1) 0 0).ta_state 0).Pairwise
      (fun a b => a.1 < b.1) ∧
    ∀ nd ∈ (stm_of_saved_dense tm_w1 0 0).ta_state 0,
      (stm_of_saved_dense tm_w1 0 0).sparse_min_state ≤ nd.2 :=
  ⟨((sparse_invariants_amended.2 stm_w1 (fun _ => 1) 0 0 (by decide) (by decide)
      (by decide) (by decide)
      (fun k => ⟨List.pairwise_singleton _ _,
        by intro nd h; rcases List.mem_singleton.mp h with rfl
           exact ⟨by decide, by decide⟩⟩) 0).1).1,
   (sparse_invariants_amended.1 tm_w1 0 0 0 (by decide) (by decide)).2⟩

theorem stm_out_one_skip (stm : SparseTsetlinMachine) (X : Nat → Nat) (k : Nat) :
    stm_clause_out_one stm X true k = 1 ↔
      ((∃ nd, nd ∈ stm.ta_state k ∧ action nd.2 stm.mid_state = true) ∧
        ∀ nd ∈ stm.ta_state k, action nd.2 stm.mid_state = true →
          X (nd.1 / 2) ≠ nd.1 % 2) := by
  by_cases hkill : (stm_clause_scan stm.mid_state X (stm.ta_state k) true).1 = true
  · have hnk := (stm_clause_scan_fst stm.mid_state X (stm.ta_state k) true).mp hkill
    have hsnd := stm_clause_scan_snd stm.mid_state X (stm.ta_state k) true hnk
    have hout : stm_clause_out_one stm X true k =
        if ((stm.ta_state k).all (fun nd => !(action nd.2 stm.mid_state)))
        then 0 else 1 := by
      simp only [stm_clause_out_one]
      rw [hkill, hsnd]
      rw [Bool.true_and, Bool.and_true]
      simp
    by_cases hall : ((stm.ta_state k).all (fun nd => !(action nd.2 stm.mid_state))) = true
    · refine iff_of_false ?_ ?_
      · rw [hout, if_pos hall]; decide
      · rintro ⟨⟨nd, hnd, ha⟩, _⟩
        have h2 := List.all_eq_true.mp hall nd hnd
        simp [ha] at h2
    · refine iff_of_true ?_ ⟨?_, hnk⟩
      · rw [hout, if_neg hall]
      · have h2 : ¬∀ nd ∈ stm.ta_state k, (!(action nd.2 stm.mid_state)) = true :=
          fun h => hall (List.all_eq_true.mpr h)
        push_neg at h2
        obtain ⟨nd, hnd, hna⟩ := h2
        refine ⟨nd, hnd, ?_⟩
        simpa using hna
  · have hnot : ¬(∀ nd ∈ stm.ta_state k, action nd.2 stm.mid_state = true →
        X (nd.1 / 2) ≠ nd.1 % 2) :=
      fun h => hkill ((stm_clause_scan_fst _ _ _ _).mpr h)
    refine iff_of_false ?_ (fun h => hnot h.2)
    rw [Bool.not_eq_true] at hkill
    unfold stm_clause_out_one
    simp [hkill]

theorem nat01_eq (a b : Nat) (ha : a ≤ 1) (hb : b ≤ 1) (h : a = 1 ↔ b = 1) :
    a = b := by omega

theorem tm_clause_out_one_le (tm : TsetlinMachine) (X : Nat → Nat)
    (skip_empty : Bool) (k : Nat) : tm_clause_out_one tm X skip_empty k ≤ 1 := by
  simp only [tm_clause_out_one]
  split
  · split <;> omega
  · omega

theorem stm_clause_out_one_le (stm : SparseTsetlinMachine) (X : Nat → Nat)
    (skip_empty : Bool) (k : Nat) : stm_clause_out_one stm X skip_empty k ≤ 1 := by
  simp only [stm_clause_out_one]
  split
  · split <;> omega
  · omega

theorem oa_fold_congr (v1 v2 : Nat → Int) :
    ∀ (cs : List Nat), (∀ c ∈ cs, v1 c = v2 c) → ∀ (b : Nat × Int),
      cs.foldl (fun bm c => if bm.2 < v1 c then (c, v1 c) else bm) b =
      cs.foldl (fun bm c => if bm.2 < v2 c then (c, v2 c) else bm) b := by
  intro cs
  induction cs with
  | nil => intro _ b; rfl
  | cons c rest ih =>
    intro h b
    simp only [List.foldl_cons]
    rw [h c (List.mem_cons_self _ _)]
    exact ih (fun c2 h2 => h c2 (List.mem_cons_of_mem _ h2)) _

theorem oa_class_idx_core_congr (C : Nat) (v1 v2 : Nat → Int) (hC : 0 < C)
    (h : ∀ c, c < C → v1 c = v2 c) :
    oa_class_idx_core C v1 = oa_class_idx_core C v2 := by
  unfold oa_class_idx_core
  rw [h 0 hC]
  exact congrArg Prod.fst (oa_fold_congr v1 v2 ((List.range C).drop 1)
    (fun c hc => h c (List.mem_range.mp (List.mem_of_mem_drop hc))) (0, v2 0))

/-- Claim C1: loading a dense model saved by tm_save with stm_load_dense
yields a sparse machine whose per-clause lists contain, for every dense
cell with action 1, exactly one entry (the lists are strictly ascending
in ta_id) carrying the original dense state, and no other entries; and
whose predict output on every input row equals the dense machine's
predict output.  The hypotheses record what tm_create established for
the saved machine: mid_state is the truncated mean of the state bounds,
at least one class exists, and the default class-index output activation
is installed.  The refinement holds for every value of the s-derived
fields of the loaded machine (quantified as sInv and sMin1Inv), which
predict never reads. -/
theorem stm_load_dense_refines (tm : TsetlinMachine) (sInv sMin1Inv : ℚ)
    (hC : 0 < tm.num_classes)
    (hmid : tm.mid_state = Int.tdiv (tm.max_state + tm.min_state) 2)
    (hoa : tm.oa = OutputActivation.class_idx) :
    (∀ (k : Nat) (nd : Nat × Int),
      ((stm_of_saved_dense tm sInv sMin1Inv).ta_state k).Pairwise
        (fun a b => a.1 < b.1) ∧
      (nd ∈ (stm_of_saved_dense tm sInv sMin1Inv).ta_state k ↔
        (nd.1 < tm.num_literals * 2 ∧
         action (tm.ta_state (k * (tm.num_literals * 2) + nd.1)) tm.mid_state = true ∧
         nd.2 = tm.ta_state (k * (tm.num_literals * 2) + nd.1)))) ∧
    (∀ X : Nat → Nat,
      (stm_predict_row (stm_of_saved_dense tm sInv sMin1Inv) X).2 =
        (tm_predict_row tm X).2) := by
  constructor
  · intro k nd
    constructor
    · exact stm_load_clause_list_sorted _ _ (tm.num_literals * 2) 0
    · have h := stm_load_clause_list_mem (Int.tdiv (tm.max_state + tm.min_state) 2)
        (fun i => tm.ta_state (k * (tm.num_literals * 2) + i))
        (tm.num_literals * 2) 0 nd
      rw [hmid]
      constructor
      · intro hnd
        have h2 := h.mp hnd
        exact ⟨by omega, h2.2.2.1, h2.2.2.2⟩
      · rintro ⟨h1, h2, h3⟩
        exact h.mpr ⟨Nat.zero_le _, by omega, h2, h3⟩
  · intro X
    have hmem : ∀ (k2 : Nat) (nd : Nat × Int),
        nd ∈ (stm_of_saved_dense tm sInv sMin1Inv).ta_state k2 ↔
          (0 ≤ nd.1 ∧ nd.1 < 0 + tm.num_literals * 2 ∧
            action (tm.ta_state (k2 * (tm.num_literals * 2) + nd.1))
              (Int.tdiv (tm.max_state + tm.min_state) 2) = true ∧
            nd.2 = tm.ta_state (k2 * (tm.num_literals * 2) + nd.1)) :=
      fun k2 nd => stm_load_clause_list_mem _ _ _ _ nd
    have hout : ∀ k2, k2 < tm.num_clauses →
        stm_clause_out_one (stm_of_saved_dense tm sInv sMin1Inv) X true k2 =
        tm_clause_out_one tm X true k2 := by
      intro k2 hk2
      refine nat01_eq _ _ (stm_clause_out_one_le _ _ _ _)
        (tm_clause_out_one_le _ _ _ _) ?_
      rw [stm_out_one_skip, tm_out_one_skip, hmid]
      constructor
      · rintro ⟨⟨nd, hnd, _⟩, hall⟩
        have hm := (hmem k2 nd).mp hnd
        refine ⟨⟨nd.1, by omega, hm.2.2.1⟩, ?_⟩
        intro j hj haj
        have hjin := (hmem k2 (j, tm.ta_state (k2 * (tm.num_literals * 2) + j))).mpr
          ⟨Nat.zero_le _, by omega, haj, rfl⟩
        exact hall _ hjin haj
      · rintro ⟨⟨j, hj, haj⟩, hall⟩
        constructor
        · exact ⟨(j, tm.ta_state (k2 * (tm.num_literals * 2) + j)),
            (hmem k2 _).mpr ⟨Nat.zero_le _, by omega, haj, rfl⟩, haj⟩
        · intro nd hnd _
          have hm := (hmem k2 nd).mp hnd
          exact hall nd.1 (by omega) hm.2.2.1
    have hvotes : ∀ c, c < tm.num_classes →
        (stm_sum_votes (stm_calculate_clause_output
          (stm_of_saved_dense tm sInv sMin1Inv) X true)).votes c =
        (tm_sum_votes (tm_calculate_clause_output tm X true)).votes c := by
      intro c hc
      have h1 : (stm_sum_votes (stm_calculate_clause_output
          (stm_of_saved_dense tm sInv sMin1Inv) X true)).votes c =
          sum_votes_core tm.num_clauses tm.num_classes
            (stm_calculate_clause_output
              (stm_of_saved_dense tm sInv sMin1Inv) X true).clause_output
            tm.weights (tm.threshold : Int) c := rfl
      have h2 : (tm_sum_votes (tm_calculate_clause_output tm X true)).votes c =
          sum_votes_core tm.num_clauses tm.num_classes
            (tm_calculate_clause_output tm X true).clause_output
            tm.weights (tm.threshold : Int) c := rfl
      rw [h1, h2,
        sum_votes_core_eval tm.num_clauses tm.num_classes _ tm.weights _ c hc,
        sum_votes_core_eval tm.num_clauses tm.num_classes _ tm.weights _ c hc]
      refine congrArg (fun s => clip s (tm.threshold : Int)) ?_
      refine congrArg List.sum (List.map_congr_left ?_)
      intro k2 hk2
      have hk2R := List.mem_range.mp hk2
      rw [stm_cco_eval _ X true k2 hk2R, tm_cco_eval tm X true k2 hk2R, hout k2 hk2R]
    have e1 : (stm_predict_row (stm_of_saved_dense tm sInv sMin1Inv) X).2 =
        [oa_class_idx_core tm.num_classes
          ((stm_sum_votes (stm_calculate_clause_output
            (stm_of_saved_dense tm sInv sMin1Inv) X true)).votes)] := rfl
    have e2 : (tm_predict_row tm X).2 =
        oa_run tm.oa tm.num_classes
          ((tm_sum_votes (tm_calculate_clause_output tm X true)).mid_state)
          ((tm_sum_votes (tm_calculate_clause_output tm X true)).votes) := rfl
    rw [e1, e2, hoa]
    simp only [oa_run]
    exact congrArg (fun x => [x])
      (oa_class_idx_core_congr tm.num_classes _ _ hC hvotes)

/-- Witness for the dense-to-sparse refinement: the machine tm_w1 and
the all-ones input row. -/
theorem stm_load_dense_refines_witness :
    (stm_predict_row (stm_of_saved_dense tm_w1 0 0) (fun _ => 1)).2 =
      (tm_predict_row tm_w1 (fun _ => 1)).2 :=
  (stm_load_dense_refines tm_w1 0 0 (by decide) (by decide) (by decide)).2 (fun _ => 1)
